import Mathlib

/-!
# Verification of the floppyexplorer EDSK/DSK container parser and FAT12 engine

Shallow embedding of `src/lib/edsk-parser.js`, the acquisition coordinator
`src/lib/greaseweazle.js`, and the disk cache of the server module, as Lean
functions over byte lists, together with proofs settling the frozen claims.

Conventions:
* A Node `Buffer` is modelled as a `List Nat` of byte values (each < 256 in
  practice; the reader functions are total).
* `Buffer.readUInt8`/`readUInt16LE` raise on out-of-range access in Node; the
  embedding totalises them with default byte `0`.  Every use below is either
  guarded by the same bounds checks the source performs, or (for the FAT table
  decode) equivalent to the source's early-`break`, as noted at the definition.
* `Buffer.slice(a, b)` clamps `b` to the buffer length; this is exactly
  `(buf.drop a).take (b - a)` on lists, which is used throughout.
* `Buffer.toString('ascii')` masks each byte to 7 bits.
-/

deriving instance DecidableEq for Except

namespace FloppyExplorer

/-- `buf.readUInt8(off)` (totalised with default 0; see module comment). -/
def readU8 (buf : List Nat) (off : Nat) : Nat := buf.getD off 0

/-- `buf.readUInt16LE(off)` (totalised). -/
def readU16LE (buf : List Nat) (off : Nat) : Nat :=
  buf.getD off 0 + 256 * buf.getD (off + 1) 0

/-- `buf.readUInt32LE(off)` (totalised). -/
def readU32LE (buf : List Nat) (off : Nat) : Nat :=
  buf.getD off 0 + 256 * buf.getD (off + 1) 0 + 65536 * buf.getD (off + 2) 0 +
    16777216 * buf.getD (off + 3) 0

/-- `buf.slice(off, off + len)` (clamped at the end of the buffer, as in Node). -/
def bufSlice (buf : List Nat) (off len : Nat) : List Nat :=
  (buf.drop off).take len

/-- `buf.slice(off, off+len).toString('ascii')`: each byte masked to 7 bits. -/
def readAscii (buf : List Nat) (off len : Nat) : String :=
  String.mk ((bufSlice buf off len).map (fun b => Char.ofNat (b % 128)))

/-- `.replace(/\0/g, '')`. -/
def stripNul (s : String) : String :=
  String.mk (s.toList.filter (fun c => c ≠ Char.ofNat 0))

/-- The characters JS `String.prototype.trim` strips, restricted to the 7-bit
range all strings in this development live in (`\t \n \v \f \r` and space; the
further Unicode space characters are unreachable after the `'ascii'` mask). -/
def isJsSpace (c : Char) : Bool :=
  c.toNat = 9 || c.toNat = 10 || c.toNat = 11 || c.toNat = 12 ||
  c.toNat = 13 || c.toNat = 32

/-- `.trim()` (structurally recursive stand-in for `String.trim`, which the
kernel cannot evaluate). -/
def jsTrim (s : String) : String :=
  String.mk (((s.toList.dropWhile isJsSpace).reverse.dropWhile isJsSpace).reverse)

/-- `s.startsWith(pre)` (structurally recursive). -/
def jsStartsWith (s pre : String) : Bool :=
  pre.toList.isPrefixOf s.toList

/-- `String(n).padStart(2, '0')` for the numbers appearing in timestamps. -/
def pad2 (n : Nat) : String :=
  if n < 10 then "0" ++ toString n else toString n

/-- `n.toString(16).toUpperCase()`. -/
def hexDigits (n : Nat) : String :=
  String.mk ((Nat.toDigits 16 n).map Char.toUpper)

/-- `'0x' + n.toString(16).toUpperCase().padStart(w, '0')` (`hex` in the source). -/
def hex (n : Nat) (w : Nat := 2) : String :=
  let d := hexDigits n
  "0x" ++ (String.mk (List.replicate (w - d.length) '0')) ++ d

/-- JSON string escaping as performed by `JSON.stringify` on a string value
(used only inside the `Unknown signature` error message). -/
def jsonEscapeChar (c : Char) : String :=
  if c = '"' then "\\\""
  else if c = '\\' then "\\\\"
  else if c = Char.ofNat 8 then "\\b"
  else if c = Char.ofNat 9 then "\\t"
  else if c = Char.ofNat 10 then "\\n"
  else if c = Char.ofNat 12 then "\\f"
  else if c = Char.ofNat 13 then "\\r"
  else if c.toNat < 32 then
    "\\u" ++ (String.mk (List.replicate (4 - (hexDigits c.toNat).length) '0')) ++
      String.mk ((Nat.toDigits 16 c.toNat).map Char.toLower)
  else String.mk [c]

/-- `JSON.stringify(s)` for a string `s`. -/
def jsonQuote (s : String) : String :=
  "\"" ++ String.join (s.toList.map jsonEscapeChar) ++ "\""

/-- `x || d` for a JS number in boolean position: `0` falls back to `d`. -/
def jsOr (x d : Nat) : Nat := if x = 0 then d else x

/-- Sector size code N -> actual bytes (`sectorSize` in the source). -/
def sectorSize (N : Nat) : Nat := 128 <<< N

/-! ## Data model -/

/-- One parsed sector descriptor (`SectorEntry`). -/
structure SectorEntry where
  index : Nat
  C : Nat
  H : Nat
  R : Nat
  N : Nat
  ST1 : Nat
  ST2 : Nat
  size : Nat
  expectedSize : Nat
  hasError : Bool
  errorFlags : List String
  dataOffset : Option Nat
  truncated : Bool
  deriving DecidableEq, Repr, Inhabited

/-- One entry of `disk.trackIndex`.  For a missing track the source stores only
`{track, side, offset: null, size: 0, missing: true, sectors: []}`; the header
fields (absent, i.e. `undefined`, in JS) are defaulted to `0`/`""` here, which
matches every use in the repository (`t.sectorCount || 0` etc.). -/
structure TrackEntry where
  track : Nat
  side : Nat
  offset : Option Nat
  size : Nat
  missing : Bool
  trackHeaderSig : String := ""
  trackNo : Nat := 0
  sideNo : Nat := 0
  dataRate : Nat := 0
  recMode : Nat := 0
  sectorSizeCode : Nat := 0
  sectorCount : Nat := 0
  gap3 : Nat := 0
  filler : Nat := 0
  sectors : List SectorEntry := []
  deriving DecidableEq, Repr, Inhabited

/-- The decoded FAT boot-parameter block (the fields of the `type: 'FAT'`
filesystem descriptor). -/
structure Bpb where
  oem : String := ""
  bytesPerSector : Nat := 0
  sectorsPerCluster : Nat := 0
  reservedSectors : Nat := 0
  fatCount : Nat := 0
  rootEntries : Nat := 0
  totalSectors : Nat := 0
  mediaDescriptor : String := ""
  sectorsPerFAT : Nat := 0
  sectorsPerTrack : Nat := 0
  heads : Nat := 0
  volumeLabel : String := ""
  fsType : String := ""
  deriving DecidableEq, Repr, Inhabited

/-- The tagged filesystem descriptor produced by `detectFilesystem`. -/
inductive FsInfo where
  | FAT (bpb : Bpb)
  | CPC (note : String)
  | unknown
  deriving DecidableEq, Repr, Inhabited

/-- The parsed container (`disk` object built by `parseDisk`). -/
structure Disk where
  format : String
  creator : String
  tracks : Nat
  sides : Nat
  trackSizeTable : List Nat
  trackIndex : List TrackEntry
  filesystem : FsInfo := .unknown
  deriving DecidableEq, Repr, Inhabited

/-! ## Container parser (`parseTrack`, `parseDisk`) -/

/-- The decoded ST1/ST2 error flag names, in the source's push order. -/
def errorFlagsOf (st1 st2 : Nat) : List String :=
  (if st1 &&& 0x80 ≠ 0 then ["end-of-cylinder"] else []) ++
  (if st1 &&& 0x20 ≠ 0 then ["data-error-in-id"] else []) ++
  (if st1 &&& 0x04 ≠ 0 then ["no-data"] else []) ++
  (if st1 &&& 0x02 ≠ 0 then ["not-writable"] else []) ++
  (if st1 &&& 0x01 ≠ 0 then ["missing-address-mark"] else []) ++
  (if st2 &&& 0x40 ≠ 0 then ["control-mark"] else []) ++
  (if st2 &&& 0x20 ≠ 0 then ["data-error-in-data"] else []) ++
  (if st2 &&& 0x04 ≠ 0 then ["wrong-cylinder"] else []) ++
  (if st2 &&& 0x02 ≠ 0 then ["bad-cylinder"] else []) ++
  (if st2 &&& 0x01 ≠ 0 then ["missing-data-mark"] else [])

/-- The sector-placement loop at the end of `parseTrack`: in declaration order,
assign `dataOffset` and advance; when the sector would cross `trackEnd`, mark it
truncated (its `dataOffset` has already been assigned) and stop, leaving the
remaining sectors untouched (`dataOffset = none`). -/
def placeSectors (dataOff trackEnd : Nat) : List SectorEntry → List SectorEntry
  | [] => []
  | sec :: rest =>
    if trackEnd < dataOff + sec.size then
      { sec with dataOffset := some dataOff, truncated := true } :: rest
    else
      { sec with dataOffset := some dataOff } ::
        placeSectors (dataOff + sec.size) trackEnd rest

/-- The header fields and sectors returned by `parseTrack` (spread into the
track-index entry by `parseDisk`). -/
structure TrackData where
  trackHeaderSig : String
  trackNo : Nat
  sideNo : Nat
  dataRate : Nat
  recMode : Nat
  sectorSizeCode : Nat
  sectorCount : Nat
  gap3 : Nat
  filler : Nat
  sectors : List SectorEntry
  deriving DecidableEq, Repr, Inhabited

/-- The sector-descriptor reading loop of `parseTrack`: `sectorCount` fresh
(unplaced) sector entries decoded from the 8-byte descriptors at
`off + 0x18 + 8·i`. -/
def sectorPres (buf : List Nat) (off sectorCount : Nat) : List SectorEntry :=
  (List.range sectorCount).map (fun i =>
    let eoff := off + 0x18 + i * 8
    let C := readU8 buf eoff
    let H := readU8 buf (eoff + 1)
    let R := readU8 buf (eoff + 2)
    let N := readU8 buf (eoff + 3)
    let ST1 := readU8 buf (eoff + 4)
    let ST2 := readU8 buf (eoff + 5)
    let actualSize := readU16LE buf (eoff + 6)
    let expectedSize := sectorSize N
    let size := if actualSize ≠ 0 then actualSize else expectedSize
    ({ index := i, C := C, H := H, R := R, N := N, ST1 := ST1, ST2 := ST2,
       size := size, expectedSize := expectedSize,
       hasError := ST1 ≠ 0 || ST2 ≠ 0,
       errorFlags := errorFlagsOf ST1 ST2,
       dataOffset := none, truncated := false } : SectorEntry))

/-- `parseTrack(buf, off, trkSize)`. -/
def parseTrack (buf : List Nat) (off trkSize : Nat) : Except String TrackData :=
  if trkSize < 256 then .error ("Track size too small: " ++ toString trkSize)
  else
    let sig := jsTrim (stripNul (readAscii buf off 12))
    let trackNo := readU8 buf (off + 0x10)
    let sideNo := readU8 buf (off + 0x11)
    let dataRate := readU8 buf (off + 0x12)
    let recMode := readU8 buf (off + 0x13)
    let sectorSizeCode := readU8 buf (off + 0x14)
    let sectorCount := readU8 buf (off + 0x15)
    let gap3 := readU8 buf (off + 0x16)
    let filler := readU8 buf (off + 0x17)
    .ok { trackHeaderSig := sig, trackNo := trackNo, sideNo := sideNo,
          dataRate := dataRate, recMode := recMode,
          sectorSizeCode := sectorSizeCode, sectorCount := sectorCount,
          gap3 := gap3, filler := filler,
          sectors := placeSectors (off + 256) (off + trkSize)
            (sectorPres buf off sectorCount) }

/-- The missing-track entry pushed when a slot's table size is zero. -/
def missingTrackEntry (t s : Nat) : TrackEntry :=
  { track := t, side := s, offset := none, size := 0, missing := true }

/-- The non-missing entry `{track, side, offset, size, ...trk}`. -/
def mkTrackEntry (t s off trkSize : Nat) (d : TrackData) : TrackEntry :=
  { track := t, side := s, offset := some off, size := trkSize, missing := false,
    trackHeaderSig := d.trackHeaderSig, trackNo := d.trackNo, sideNo := d.sideNo,
    dataRate := d.dataRate, recMode := d.recMode,
    sectorSizeCode := d.sectorSizeCode, sectorCount := d.sectorCount,
    gap3 := d.gap3, filler := d.filler, sectors := d.sectors }

/-- The track walk of `parseDisk`, over the remaining `(track, side, slotSize)`
slots, carrying the byte cursor `off`. -/
def walkTracks (buf : List Nat) : List (Nat × Nat × Nat) → Nat →
    Except String (List TrackEntry)
  | [], _ => .ok []
  | (t, s, trkSize) :: rest, off =>
    if trkSize = 0 then
      (walkTracks buf rest off).map (fun es => missingTrackEntry t s :: es)
    else if buf.length < off + trkSize then
      .error ("Track data out of bounds at track=" ++ toString t ++ " side=" ++
        toString s)
    else
      (parseTrack buf off trkSize).bind (fun td =>
        (walkTracks buf rest (off + trkSize)).map
          (fun es => mkTrackEntry t s off trkSize td :: es))

/-- The `(t, s)` slots in row-major order with side varying fastest, paired with
their track-size-table entries (`trackSizeTable[idx] || 0`). -/
def trackSlots (tracks sides : Nat) (table : List Nat) : List (Nat × Nat × Nat) :=
  (List.range tracks).flatMap (fun t =>
    (List.range sides).map (fun s => (t, s, table.getD (t * sides + s) 0)))

/-- `detectFilesystem(buf, disk)`. -/
def detectFilesystem (buf : List Nat) (disk : Disk) : FsInfo :=
  match disk.trackIndex.find? (fun t => t.track == 0 && t.side == 0 && !t.missing) with
  | none => .unknown
  | some trk0 =>
    if trk0.sectors.length = 0 then .unknown
    else
      let sec := trk0.sectors.headD default
      match sec.dataOffset with
      | none => .unknown
      | some d =>
        let boot := bufSlice buf d (min sec.size 512)
        if boot.length < 64 then .unknown
        else if boot.getD 0 0 = 0xEB ∨ boot.getD 0 0 = 0xE9 then
          .FAT {
            oem := jsTrim (readAscii boot 3 8),
            bytesPerSector := readU16LE boot 11,
            sectorsPerCluster := readU8 boot 13,
            reservedSectors := readU16LE boot 14,
            fatCount := readU8 boot 16,
            rootEntries := readU16LE boot 17,
            totalSectors := jsOr (readU16LE boot 19) (readU32LE boot 32),
            mediaDescriptor := hex (readU8 boot 21),
            sectorsPerFAT := readU16LE boot 22,
            sectorsPerTrack := readU16LE boot 24,
            heads := readU16LE boot 26,
            volumeLabel := stripNul (jsTrim (readAscii boot 43 11)),
            fsType := stripNul (jsTrim (readAscii boot 54 8)) }
        else if trk0.sectors.any (fun s => 0xC1 ≤ s.R && s.R ≤ 0xC9) then
          .CPC "Amstrad CPC sector IDs detected"
        else .unknown

/-- `parseDisk(buf)`. -/
def parseDisk (buf : List Nat) : Except String Disk :=
  if buf.length < 256 then .error "File too small"
  else
    let sig := readAscii buf 0 34
    let isEDSK := jsStartsWith sig "EXTENDED CPC DSK File"
    let isDSK := jsStartsWith sig "MV - CPC" || jsStartsWith sig "MV - CPCEMU"
    if !isEDSK && !isDSK then
      .error ("Unknown signature: " ++ jsonQuote sig)
    else
      let creator := jsTrim (stripNul (readAscii buf 34 14))
      let tracks := readU8 buf 0x30
      let sides := readU8 buf 0x31
      if tracks = 0 ∨ sides = 0 then
        .error ("Invalid geometry tracks=" ++ toString tracks ++ " sides=" ++
          toString sides)
      else
        let count := tracks * sides
        let table :=
          if isEDSK then (List.range count).map (fun i => readU8 buf (0x34 + i) * 256)
          else List.replicate count (readU16LE buf 0x32 * 256)
        (walkTracks buf (trackSlots tracks sides table) 256).map (fun entries =>
          let disk : Disk := {
            format := if isEDSK then "EDSK" else "DSK",
            creator := creator, tracks := tracks, sides := sides,
            trackSizeTable := table, trackIndex := entries }
          { disk with filesystem := detectFilesystem buf disk })

/-! ## Flat imager (`buildFlatImage`) -/

/-- Stable insertion of a sector into an R-ascending list (the comparator
`(a, b) => a.R - b.R` of `[...trk.sectors].sort`). -/
def insertByR (s : SectorEntry) : List SectorEntry → List SectorEntry
  | [] => [s]
  | t :: ts => if t.R ≤ s.R then t :: insertByR s ts else s :: t :: ts

/-- `[...trk.sectors].sort((a, b) => a.R - b.R)` as a stable sort by `R`. -/
def sortByR : List SectorEntry → List SectorEntry
  | [] => []
  | s :: ss => insertByR s (sortByR ss)

/-- The bytes one sector contributes to the flat image: its byte range (clamped
at the end of `buf`, as `buf.slice` is), or `size` zero bytes when unplaced. -/
def sectorFlatPart (buf : List Nat) (sec : SectorEntry) : List Nat :=
  match sec.dataOffset with
  | none => List.replicate sec.size 0
  | some d => bufSlice buf d sec.size

/-- `buildFlatImage(buf, disk)`. -/
def buildFlatImage (buf : List Nat) (disk : Disk) : List Nat :=
  match disk.trackIndex.find? (fun t => !t.missing && t.sectors.length != 0) with
  | none => []
  | some firstTrack =>
    let sectorBytes := (firstTrack.sectors.headD default).size
    let sectorsPerTrack := firstTrack.sectorCount
    let trackBytes := sectorsPerTrack * sectorBytes
    ((disk.trackIndex.map (fun trk =>
      if trk.missing then List.replicate trackBytes 0
      else ((sortByR trk.sectors).map (sectorFlatPart buf)).flatten)).flatten)

/-! ## FAT12 engine -/

/-- `fs_info.bytesPerSector || 512`. -/
def bpsOf (b : Bpb) : Nat := jsOr b.bytesPerSector 512

/-- `fs_info.sectorsPerCluster || 1`. -/
def spcOf (b : Bpb) : Nat := jsOr b.sectorsPerCluster 1

/-- `clusterBytes = bps * spc`. -/
def clusterBytesOf (b : Bpb) : Nat := bpsOf b * spcOf b

/-- `rootStart = (reservedSectors + fatCount * sectorsPerFAT) * bps`. -/
def rootStartOf (b : Bpb) : Nat :=
  (b.reservedSectors + b.fatCount * b.sectorsPerFAT) * bpsOf b

/-- `dataStart = (reservedSectors + fatCount*sectorsPerFAT + ⌈rootEntries*32/bps⌉) * bps`. -/
def dataStartOf (b : Bpb) : Nat :=
  (b.reservedSectors + b.fatCount * b.sectorsPerFAT +
    (b.rootEntries * 32 + (bpsOf b - 1)) / bpsOf b) * bpsOf b

/-- `readFAT12Table(flat, fs_info)`.  The source fills a zero-initialised
`Uint16Array` and `break`s at the first index whose byte pair is out of range;
since `byteIndex` is monotone in `i`, that is the same as the pointwise guard
used here (later entries stay 0 either way).  `totalClusters` uses the raw
`sectorsPerCluster` (no `|| 1` in the source); JS division by zero would make
the array construction throw, while Nat division by zero yields 0 — all uses in
this file have `sectorsPerCluster ≠ 0`. -/
def readFAT12Table (flat : List Nat) (b : Bpb) : List Nat :=
  let bps := bpsOf b
  let fatStart := b.reservedSectors * bps
  let totalClusters := b.totalSectors / b.sectorsPerCluster + 2
  (List.range totalClusters).map (fun i =>
    let byteIndex := fatStart + i * 3 / 2
    if flat.length ≤ byteIndex + 1 then 0
    else
      let pair := readU16LE flat byteIndex
      if i % 2 = 1 then (pair >>> 4) &&& 0xFFF else pair &&& 0xFFF)

/-- The cluster-chain loop of `readSubdir` (inside `readFATDirectory`),
fuel-indexed because the source loop — `while (cluster >= 2 && cluster < 0xFF8)`
with `cluster = fat[cluster]` and no visited set — need not terminate.
`none` means the fuel ran out while the loop was still running; `some chunks`
means the loop exited by itself within `fuel` iterations.  An out-of-range
`fat[cluster]` is `undefined` in JS and exits the loop at the next condition
check, exactly as the default value `0` does here. -/
def readSubdirGo (flat fat : List Nat) (dataStart clusterBytes : Nat) :
    Nat → Nat → Option (List (List Nat))
  | 0, cluster =>
    if 2 ≤ cluster ∧ cluster < 0xFF8 then
      let offset := dataStart + (cluster - 2) * clusterBytes
      if flat.length < offset + clusterBytes then some [] else none
    else some []
  | fuel + 1, cluster =>
    if 2 ≤ cluster ∧ cluster < 0xFF8 then
      let offset := dataStart + (cluster - 2) * clusterBytes
      if flat.length < offset + clusterBytes then some []
      else
        (readSubdirGo flat fat dataStart clusterBytes fuel (fat.getD cluster 0)).map
          (fun rest => bufSlice flat offset clusterBytes :: rest)
    else some []

/-- The cluster-chain loop of `readFileData`.  The loop also decrements
`remaining` by `min(clusterBytes, remaining)` each iteration, so with
`clusterBytes ≥ 1` (always true: both factors go through `|| default`) it runs
at most `remaining` iterations; `fuel := fileSize` therefore reproduces the
source loop exactly at every call site below. -/
def readFileDataLoop (flat fat : List Nat) (dataStart cb : Nat) :
    Nat → Nat → Nat → List (List Nat)
  | 0, _, _ => []
  | fuel + 1, cluster, remaining =>
    if 2 ≤ cluster ∧ cluster < 0xFF8 ∧ 0 < remaining then
      let offset := dataStart + (cluster - 2) * cb
      let toRead := min cb remaining
      if flat.length < offset + toRead then []
      else
        bufSlice flat offset toRead ::
          readFileDataLoop flat fat dataStart cb fuel (fat.getD cluster 0)
            (remaining - toRead)
    else []

/-- Iteration count of the same loop (`readFileDataLoop`): how many clusters the
loop reads.  Identical recursion, returning the count instead of the chunks. -/
def readFileDataVisits (flat fat : List Nat) (dataStart cb : Nat) :
    Nat → Nat → Nat → Nat
  | 0, _, _ => 0
  | fuel + 1, cluster, remaining =>
    if 2 ≤ cluster ∧ cluster < 0xFF8 ∧ 0 < remaining then
      let offset := dataStart + (cluster - 2) * cb
      let toRead := min cb remaining
      if flat.length < offset + toRead then 0
      else
        readFileDataVisits flat fat dataStart cb fuel (fat.getD cluster 0)
          (remaining - toRead) + 1
    else 0

/-- `readFileData(buf, disk, fs_info, startCluster, fileSize)`.  (The source's
`if (!flat) return null` can never fire — `buildFlatImage` always returns a
Buffer object, which is truthy — so it has no counterpart here.) -/
def readFileData (buf : List Nat) (disk : Disk) (info : FsInfo)
    (startCluster fileSize : Nat) : Option (List Nat) :=
  match info with
  | .FAT b =>
    if startCluster < 2 then none
    else
      let flat := buildFlatImage buf disk
      let cb := clusterBytesOf b
      let fat := readFAT12Table flat b
      some (readFileDataLoop flat fat (dataStartOf b) cb fileSize startCluster
        fileSize).flatten
  | _ => none

/-! ## Directory entry parsing (`parseDirEntries`, VFAT LFN reassembly) -/

/-- One inner range of `extractLFNChars`: UTF-16LE code units at
`off + start + 2*j`, ...  Returns the collected characters and whether a
`0x0000`/`0xFFFF` terminator was hit (`true` aborts the remaining ranges, the
source's `return chars`; a length break only ends the current range, the
source's `break`).  `String.fromCharCode` is modelled by `Char.ofNat`
(identical on non-surrogate code units; no claim involves surrogates). -/
def extractLFNRange (flat : List Nat) (off start : Nat) :
    Nat → Nat → List Char × Bool
  | _, 0 => ([], false)
  | j, count + 1 =>
    let pos := off + start + j * 2
    if flat.length ≤ pos + 1 then ([], false)
    else
      let code := readU16LE flat pos
      if code = 0 ∨ code = 0xFFFF then ([], true)
      else
        let r := extractLFNRange flat off start (j + 1) count
        (Char.ofNat code :: r.1, r.2)

/-- `extractLFNChars(flat, off)`: the three disjoint LFN character fields. -/
def extractLFNChars (flat : List Nat) (off : Nat) : List Char :=
  let r1 := extractLFNRange flat off 1 0 5
  if r1.2 then r1.1
  else
    let r2 := extractLFNRange flat off 14 0 6
    if r2.2 then r1.1 ++ r2.1
    else
      let r3 := extractLFNRange flat off 28 0 2
      r1.1 ++ r2.1 ++ r3.1

/-- `parseDirEntryTime(flat, off)`: the formatted `(date, time)` strings. -/
def parseDirEntryTime (flat : List Nat) (off : Nat) : String × String :=
  let time := readU16LE flat (off + 22)
  let date := readU16LE flat (off + 24)
  let year := ((date >>> 9) &&& 0x7F) + 1980
  let month := (date >>> 5) &&& 0x0F
  let day := date &&& 0x1F
  let hour := (time >>> 11) &&& 0x1F
  let minute := (time >>> 5) &&& 0x3F
  (toString year ++ "-" ++ pad2 month ++ "-" ++ pad2 day,
   pad2 hour ++ ":" ++ pad2 minute)

/-- The JS LFN accumulator: a sparse array of fragment strings.  A hole (an
index never assigned) is `none`; `Array.prototype.join('')` renders holes as
`""`. -/
def partsJoin (parts : List (Option String)) : String :=
  String.join (parts.map (fun o => o.getD ""))

/-- `lfnParts[i] = v` on a JS array: in-place for `i < length`, otherwise the
array grows to length `i + 1` with holes in between. -/
def setSlot (l : List (Option String)) (i : Nat) (v : String) :
    List (Option String) :=
  if i < l.length then l.set i (some v)
  else l ++ List.replicate (i - l.length) none ++ [some v]

/-- A logical directory entry (`DirEntry`). -/
structure DirEntry where
  name : String
  shortName : String
  longName : Option String
  attr : Nat
  isDir : Bool
  isHidden : Bool
  isSystem : Bool
  isReadOnly : Bool
  isVolumeLabel : Bool
  size : Nat
  cluster : Nat
  date : String
  time : String
  deriving DecidableEq, Repr, Inhabited

/-- The short-name-entry record decode of `parseDirEntries` (the `entries.push`
body).  `longName || sfn` in JS falls back to `sfn` also when the joined long
name is the empty string (`""` is falsy). -/
def mkDirEntry (flat : List Nat) (off : Nat) (lfnParts : List (Option String)) :
    DirEntry :=
  let rawName := jsTrim (readAscii flat off 8)
  let rawExt := jsTrim (readAscii flat (off + 8) 3)
  let sfn := if rawExt ≠ "" then rawName ++ "." ++ rawExt else rawName
  let longName := if lfnParts.length ≠ 0 then some (partsJoin lfnParts) else none
  let attr := readU8 flat (off + 11)
  let fileSize := readU32LE flat (off + 28)
  let cluster := readU16LE flat (off + 26)
  let ts := parseDirEntryTime flat off
  { name := match longName with
      | some s => if s = "" then sfn else s
      | none => sfn,
    shortName := sfn, longName := longName, attr := attr,
    isDir := attr &&& 0x10 ≠ 0, isHidden := attr &&& 0x02 ≠ 0,
    isSystem := attr &&& 0x04 ≠ 0, isReadOnly := attr &&& 0x01 ≠ 0,
    isVolumeLabel := attr &&& 0x08 ≠ 0,
    size := fileSize, cluster := cluster, date := ts.1, time := ts.2 }

/-- The scan loop of `parseDirEntries`, structurally recursive on the remaining
entry budget (`maxEntries - i`); the source's `off = startOff + i*32` is carried
directly.  A live LFN entry with sequence bits 0 assigns `lfnParts[-1]` in JS,
which neither changes the array's length nor its `join`; it is a no-op here. -/
def parseDirEntriesAux (flat : List Nat) :
    List (Option String) → Nat → Nat → List DirEntry
  | _, _, 0 => []
  | lfnParts, off, fuel + 1 =>
    if flat.length < off + 32 then []
    else
      let first := readU8 flat off
      if first = 0 then []
      else if first = 0xE5 then parseDirEntriesAux flat [] (off + 32) fuel
      else
        let attr := readU8 flat (off + 11)
        if attr = 0x0F then
          let seq := first &&& 0x3F
          let isLast := first &&& 0x40 ≠ 0
          let chars := extractLFNChars flat off
          let base := if isLast then [] else lfnParts
          let parts :=
            if seq = 0 then base else setSlot base (seq - 1) (String.mk chars)
          parseDirEntriesAux flat parts (off + 32) fuel
        else
          mkDirEntry flat off lfnParts :: parseDirEntriesAux flat [] (off + 32) fuel

/-- `parseDirEntries(flat, startOff, maxEntries)`. -/
def parseDirEntries (flat : List Nat) (startOff maxEntries : Nat) : List DirEntry :=
  parseDirEntriesAux flat [] startOff maxEntries

/-! ## Deleted-entry scan (`parseDeletedEntries`, `readDeletedFiles`) -/

/-- A deleted directory entry (`DeletedEntry`); `recoverable`/`reason` are
attached afterwards by `readDeletedFiles` (defaulted until then). -/
structure DeletedEntry where
  name : String
  shortName : String
  attr : Nat
  isDeleted : Bool
  size : Nat
  cluster : Nat
  date : String
  time : String
  recoverable : Bool := false
  reason : String := ""
  deriving DecidableEq, Repr, Inhabited

/-- The deleted-8.3-record decode of `parseDeletedEntries` (first character
lost, shown as `?`). -/
def mkDeletedEntry (flat : List Nat) (off : Nat) : DeletedEntry :=
  let rawName := "?" ++ jsTrim (readAscii flat (off + 1) 7)
  let rawExt := jsTrim (readAscii flat (off + 8) 3)
  let sfn := if rawExt ≠ "" then rawName ++ "." ++ rawExt else rawName
  let attr := readU8 flat (off + 11)
  let fileSize := readU32LE flat (off + 28)
  let cluster := readU16LE flat (off + 26)
  let ts := parseDirEntryTime flat off
  { name := sfn, shortName := sfn, attr := attr, isDeleted := true,
    size := fileSize, cluster := cluster, date := ts.1, time := ts.2 }

/-- The scan loop of `parseDeletedEntries`.  Its `lfnParts` accumulator is
written but never read in the source; it is carried anyway. -/
def parseDeletedEntriesAux (flat : List Nat) :
    List (Option String) → Nat → Nat → List DeletedEntry
  | _, _, 0 => []
  | lfnParts, off, fuel + 1 =>
    if flat.length < off + 32 then []
    else
      let first := readU8 flat off
      if first = 0 then []
      else
        let attr := readU8 flat (off + 11)
        if first = 0xE5 ∧ attr = 0x0F then
          parseDeletedEntriesAux flat lfnParts (off + 32) fuel
        else if attr = 0x0F then
          parseDeletedEntriesAux flat [] (off + 32) fuel
        else if first ≠ 0xE5 then
          parseDeletedEntriesAux flat [] (off + 32) fuel
        else
          let e := mkDeletedEntry flat off
          if e.attr &&& 0x10 ≠ 0 ∨ e.attr &&& 0x08 ≠ 0 then
            parseDeletedEntriesAux flat lfnParts (off + 32) fuel
          else if e.cluster < 2 ∨ e.size = 0 then
            parseDeletedEntriesAux flat lfnParts (off + 32) fuel
          else e :: parseDeletedEntriesAux flat lfnParts (off + 32) fuel

/-- `parseDeletedEntries(flat, startOff, maxEntries)`. -/
def parseDeletedEntries (flat : List Nat) (startOff maxEntries : Nat) :
    List DeletedEntry :=
  parseDeletedEntriesAux flat [] startOff maxEntries

/-- The free-run counting loop of `readDeletedFiles`:
`for (c = cluster; c < cluster + clustersNeeded && c < totalClusters; c++)
 { if (fat[c] !== 0) break; freeCount++; }`, recursive on the remaining
needed-budget. -/
def freeRun (fat : List Nat) : Nat → Nat → Nat
  | _, 0 => 0
  | c, n + 1 =>
    if c < fat.length then
      if fat.getD c 0 ≠ 0 then 0 else freeRun fat (c + 1) n + 1
    else 0

/-- The per-entry recoverability assessment of `readDeletedFiles`
(`Math.ceil(size / clusterBytes)` is `(size + cb - 1) / cb` for `cb > 0`). -/
def assessDeleted (fat : List Nat) (clusterBytes : Nat) (e : DeletedEntry) :
    DeletedEntry :=
  let clustersNeeded := (e.size + clusterBytes - 1) / clusterBytes
  if fat.length ≤ e.cluster ∨ fat.getD e.cluster 0 ≠ 0 then
    { e with recoverable := false, reason := "Start cluster reallocated" }
  else
    let freeCount := freeRun fat e.cluster clustersNeeded
    if clustersNeeded ≤ freeCount then
      let r := toString clustersNeeded ++ " cluster" ++
        (if 1 < clustersNeeded then "s" else "") ++ " free"
      { e with recoverable := true, reason := r }
    else
      let r := "Only " ++ toString freeCount ++ "/" ++
        toString clustersNeeded ++ " clusters free"
      { e with recoverable := false, reason := r }

/-- `readDeletedFiles(buf, disk, fs_info)`.  (As with `readFileData`, the
source's `!flat` guard can never fire.) -/
def readDeletedFiles (buf : List Nat) (disk : Disk) (info : FsInfo) :
    List DeletedEntry :=
  match info with
  | .FAT b =>
    let rootStart := rootStartOf b
    let rootSize := b.rootEntries * 32
    let flat := buildFlatImage buf disk
    if flat.length < rootStart + rootSize then []
    else
      let fat := readFAT12Table flat b
      (parseDeletedEntries flat rootStart b.rootEntries).map
        (assessDeleted fat (clusterBytesOf b))
  | _ => []

/-! ## Disk cache (`loadDisk` in the server module) -/

/-- The `fs.statSync` information `loadDisk` consults (`present` models
`fs.existsSync`). -/
structure FileStat where
  present : Bool
  size : Nat
  mtimeMs : Nat
  deriving DecidableEq, Repr, Inhabited

/-- A successful cache entry `{ buf, disk, mtime, name, size }`. -/
structure CacheEntry where
  buf : List Nat
  disk : Disk
  mtime : Nat
  name : String
  size : Nat
  deriving DecidableEq, Repr, Inhabited

/-- What `loadDisk` returns to its caller: a parsed entry or the ad-hoc
`{ error, name, size }` object built on parse failure. -/
inductive LoadResult where
  | entry (e : CacheEntry)
  | errEntry (error : String) (name : String) (size : Nat)
  deriving DecidableEq, Repr, Inhabited

/-- `diskCache.get(name)` on the cache modelled as an association list. -/
def cacheGet (cache : List (String × CacheEntry)) (name : String) :
    Option CacheEntry :=
  (cache.find? (fun p => p.1 == name)).map (fun p => p.2)

/-- `diskCache.set(name, e)`. -/
def cacheSet (cache : List (String × CacheEntry)) (name : String)
    (e : CacheEntry) : List (String × CacheEntry) :=
  if (cache.find? (fun p => p.1 == name)).isSome then
    cache.map (fun p => if p.1 == name then (name, e) else p)
  else cache ++ [(name, e)]

/-- The parse-and-cache tail of `loadDisk` (the `try`/`catch` block).  The
returned triple is `(result, cache afterwards, whether parseFile ran)`; the
last component instruments the reparse behaviour and has no source
counterpart. -/
def loadDiskParse (stat : FileStat) (bytes : List Nat) (name : String)
    (cache : List (String × CacheEntry)) :
    Option LoadResult × List (String × CacheEntry) × Bool :=
  match parseDisk bytes with
  | .ok disk =>
    let e : CacheEntry := { buf := bytes, disk := disk, mtime := stat.mtimeMs,
                            name := name, size := stat.size }
    (some (.entry e), cacheSet cache name e, true)
  | .error msg => (some (.errEntry msg name stat.size), cache, true)

/-- `loadDisk(name)`: stat, zero-size and cache checks, then parse.  `bytes`
are the file's content (read by `parseFile`); the filesystem is modelled by the
`stat`/`bytes` pair. -/
def loadDisk (stat : FileStat) (bytes : List Nat) (name : String)
    (cache : List (String × CacheEntry)) :
    Option LoadResult × List (String × CacheEntry) × Bool :=
  if !stat.present then (none, cache, false)
  else if stat.size = 0 then (none, cache, false)
  else
    match cacheGet cache name with
    | some cached =>
      if cached.mtime = stat.mtimeMs then (some (.entry cached), cache, false)
      else loadDiskParse stat bytes name cache
    | none => loadDiskParse stat bytes name cache

/-! ## Acquisition coordinator (`greaseweazle.js` `read` + the WS handler)

The `read` promise is event-driven: the spawned child's `stderr`/`stdout`
`data` events, the `abort` listener on the cancellation signal, and the `close`
event.  The embedding is a state machine over those events; callbacks run
sequentially (single-threaded event loop), so a trace is a list of events.
The OS-level sibling check (`pgrep`) is outside the embedded state and
modelled as finding nothing. -/

/-- What a `read()` call observably produces, in arrival order:
`accepted` (guard passed, child spawned), `deviceBusy` (guard threw),
`success lastProgress` (exit code 0) or `readFailed msg` (the generic
`gw read failed (code N): stderr` rejection — the only failure the source can
produce, cancelled or not). -/
inductive GwOutcome where
  | accepted
  | deviceBusy
  | success (lastProgress : String)
  | readFailed (msg : String)
  deriving DecidableEq, Repr, Inhabited

/-- Events delivered to the in-flight read. `closeEvent none` models a `close`
with `code === null` (child killed by a signal, e.g. after SIGTERM). -/
inductive GwEvent where
  | startRead
  | stderrData (text : String)
  | abortSignal
  | closeEvent (code : Option Nat)
  deriving DecidableEq, Repr, Inhabited

/-- The mutable state: `activeProc` is `gwOurProc !== null`, `killSent` records
that `proc.kill('SIGTERM')` ran, `stderrBuf`/`lastProgress` are the promise's
accumulators, `log` the outcomes produced so far. -/
structure GwState where
  activeProc : Bool := false
  killSent : Bool := false
  stderrBuf : String := ""
  lastProgress : String := ""
  log : List GwOutcome := []
  deriving DecidableEq, Repr, Inhabited

/-- `${code}` in the rejection template (`null` prints as `"null"`). -/
def jsCodeStr : Option Nat → String
  | none => "null"
  | some n => toString n

/-- The rejection message `gw read failed (code ${code}): ${stderr}`. -/
def gwFailMsg (code : Option Nat) (stderrText : String) : String :=
  "gw read failed (code " ++ jsCodeStr code ++ "): " ++ stderrText

/-- Split a character list at every character satisfying `p`, keeping empty
segments (the semantics of `String.split`/JS `split`). -/
def splitChars (p : Char → Bool) : List Char → List (List Char)
  | [] => [[]]
  | c :: cs =>
    let r := splitChars p cs
    if p c then [] :: r else (c :: r.headD []) :: r.tail

/-- The non-empty trimmed lines of a chunk, split on `\r`, `\n` or `\r\n`
(splitting on the two characters produces extra empty strings for `\r\n`,
which the source's `if (trimmed)` filter drops as well). -/
def gwLines (text : String) : List String :=
  (((splitChars (fun c => c = '\n' || c = '\r') text.toList).map
    (fun l => jsTrim (String.mk l))).filter (fun l => l ≠ ""))

/-- One event step of the read lifecycle. -/
def gwStep (st : GwState) (ev : GwEvent) : GwState :=
  match ev with
  | .startRead =>
    if st.activeProc then { st with log := st.log ++ [.deviceBusy] }
    else { st with activeProc := true, stderrBuf := "", lastProgress := "",
                   log := st.log ++ [.accepted] }
  | .stderrData text =>
    if st.activeProc then
      { st with stderrBuf := st.stderrBuf ++ text,
                lastProgress := (gwLines text).getLastD st.lastProgress }
    else st
  | .abortSignal =>
    if st.activeProc then { st with killSent := true } else st
  | .closeEvent code =>
    if st.activeProc then
      let outcome := if code = some 0 then GwOutcome.success st.lastProgress
        else GwOutcome.readFailed (gwFailMsg code st.stderrBuf)
      { st with activeProc := false, log := st.log ++ [outcome] }
    else st

/-- Run a trace of events from the idle state. -/
def gwRun (evs : List GwEvent) : GwState := evs.foldl gwStep {}

/-- Modelled from the spec: the error-kind vocabulary of spec §7 for the read
path.  The source has no representation of a distinct `Cancelled` kind; this
type exists to state claim C3 in the spec's terms. -/
inductive SpecReadKind where
  | completed
  | externalReadFailed
  | cancelled
  deriving DecidableEq, Repr

/-- Modelled from the spec: "A cancellation handle, when triggered, sends a
terminate signal to the child; the resulting non-zero exit is reported as
`Cancelled`" — the classification of a close event the spec prescribes. -/
def specCloseKind (killSent : Bool) (code : Option Nat) : SpecReadKind :=
  if code = some 0 then .completed
  else if killSent then .cancelled else .externalReadFailed

/-- The spec kind a source outcome actually carries: the source's rejection is
the one generic failure, i.e. `ExternalReadFailed`. -/
def outcomeKind : GwOutcome → Option SpecReadKind
  | .success _ => some .completed
  | .readFailed _ => some .externalReadFailed
  | _ => none

/-- `readSectorData(buf, disk, track, side, sectorR)`. -/
def readSectorData (buf : List Nat) (disk : Disk) (track side sectorR : Nat) :
    Option (List Nat) :=
  match disk.trackIndex.find? (fun t => t.track == track && t.side == side) with
  | none => none
  | some trk =>
    if trk.missing then none
    else
      match trk.sectors.find? (fun s => s.R == sectorR) with
      | none => none
      | some sec =>
        match sec.dataOffset with
        | none => none
        | some d => some (bufSlice buf d sec.size)

/-! ## Spec-side vocabulary used in claim statements -/

/-- A FAT index that is in range and free (zero), the spec's condition on the
clusters of a recoverable deleted file. -/
def fatFreeAt (fat : List Nat) (i : Nat) : Prop :=
  i < fat.length ∧ fat.getD i 0 = 0

instance (fat : List Nat) (i : Nat) : Decidable (fatFreeAt fat i) := by
  unfold fatFreeAt; infer_instance

/-- The length of the run of consecutive in-range free FAT entries starting at
`c`, within the `n`-cluster budget — the spec's `k` of `"Only k/N clusters
free"`, phrased independently of the source loop. -/
def freeRunSpec (fat : List Nat) (c n : Nat) : Nat :=
  ((List.range' c n).takeWhile (fun i => decide (fatFreeAt fat i))).length

/-- The identity of a deleted entry, without the recoverability assessment. -/
def deletedBase (e : DeletedEntry) :
    String × String × Nat × Nat × Nat × String × String :=
  (e.name, e.shortName, e.attr, e.size, e.cluster, e.date, e.time)

/-- Sum of the sizes of the first `j` sectors (for stating data-offset
positions). -/
def sizesSum (l : List SectorEntry) (j : Nat) : Nat :=
  ((l.take j).map (fun s => s.size)).sum

/-! ## Concrete inputs used by witnesses and counterexamples -/

/-- ASCII codes of `"EXTENDED CPC DSK File"`. -/
def edskSigBytes : List Nat :=
  [69, 88, 84, 69, 78, 68, 69, 68, 32, 67, 80, 67, 32, 68, 83, 75, 32, 70,
   105, 108, 101]

/-- A 768-byte EDSK image: 1 track, 1 side, slot size 512, one 256-byte sector
(`N = 1`, `R = 1`) that fits its track exactly. -/
def edskBuf : List Nat :=
  edskSigBytes ++ List.replicate 27 0 ++ [1, 1] ++ [0, 0] ++ [2] ++
  List.replicate 203 0 ++
  List.replicate 16 0 ++ [0, 0, 0, 0, 1, 1, 0, 0] ++
  [0, 0, 1, 1, 0, 0, 0, 0] ++
  List.replicate 224 0 ++ List.replicate 256 0

def edskSector : SectorEntry :=
  { index := 0, C := 0, H := 0, R := 1, N := 1, ST1 := 0, ST2 := 0, size := 256,
    expectedSize := 256, hasError := false, errorFlags := [],
    dataOffset := some 512, truncated := false }

def edskTrack : TrackEntry :=
  { track := 0, side := 0, offset := some 256, size := 512, missing := false,
    trackHeaderSig := "", trackNo := 0, sideNo := 0, dataRate := 0,
    recMode := 0, sectorSizeCode := 1, sectorCount := 1, gap3 := 0, filler := 0,
    sectors := [edskSector] }

def edskDisk : Disk :=
  { format := "EDSK", creator := "", tracks := 1, sides := 1,
    trackSizeTable := [512], trackIndex := [edskTrack], filesystem := .unknown }

/-- A 512-byte EDSK image: 1 track with slot size 256 (header only) that still
declares one 128-byte sector, which therefore overflows the slot and is marked
truncated at `dataOffset = 512` — past the end of the 512-byte buffer. -/
def c5buf : List Nat :=
  edskSigBytes ++ List.replicate 27 0 ++ [1, 1] ++ [0, 0] ++ [1] ++
  List.replicate 203 0 ++
  List.replicate 16 0 ++ [0, 0, 0, 0, 0, 1, 0, 0] ++
  [0, 0, 1, 0, 0, 0, 0, 0] ++
  List.replicate 224 0

def c5sector : SectorEntry :=
  { index := 0, C := 0, H := 0, R := 1, N := 0, ST1 := 0, ST2 := 0, size := 128,
    expectedSize := 128, hasError := false, errorFlags := [],
    dataOffset := some 512, truncated := true }

def c5track : TrackEntry :=
  { track := 0, side := 0, offset := some 256, size := 256, missing := false,
    trackHeaderSig := "", trackNo := 0, sideNo := 0, dataRate := 0,
    recMode := 0, sectorSizeCode := 0, sectorCount := 1, gap3 := 0, filler := 0,
    sectors := [c5sector] }

def c5disk : Disk :=
  { format := "EDSK", creator := "", tracks := 1, sides := 1,
    trackSizeTable := [256], trackIndex := [c5track], filesystem := .unknown }

/-- A harness disk whose flat image is exactly the first `n` bytes of the raw
buffer: one track, one sector of size `n` at `dataOffset = 0` (used to feed
concrete flat images to the FAT12 operations, which all take `(buf, disk)`). -/
def flatSector (n : Nat) : SectorEntry :=
  { index := 0, C := 0, H := 0, R := 1, N := 0, ST1 := 0, ST2 := 0, size := n,
    expectedSize := 128, hasError := false, errorFlags := [],
    dataOffset := some 0, truncated := false }

def flatDisk (n : Nat) : Disk :=
  { format := "EDSK", creator := "", tracks := 1, sides := 1,
    trackSizeTable := [n], trackIndex :=
      [{ track := 0, side := 0, offset := some 0, size := n, missing := false,
         sectorCount := 1, sectors := [flatSector n] }],
    filesystem := .unknown }

/-- A tiny FAT geometry: 32-byte sectors, 1 sector per cluster, 1 reserved
sector, 1 FAT of 1 sector, 1 root entry, 4 total sectors.  So `fatStart = 32`,
`rootStart = 64`, `dataStart = 96`, `clusterBytes = 32`, `totalClusters = 6`. -/
def tinyBpb : Bpb :=
  { bytesPerSector := 32, sectorsPerCluster := 1, reservedSectors := 1,
    fatCount := 1, rootEntries := 1, totalSectors := 4, sectorsPerFAT := 1 }

/-- A 128-byte flat image for `tinyBpb` whose FAT maps cluster 2 to itself
(byte 35 = 2 makes the 12-bit entry at index 2 equal 2): a one-cluster cycle. -/
def c1buf : List Nat := List.replicate 35 0 ++ [2] ++ List.replicate 92 0

/-- A deleted 8.3 root record: name `?AB`, attr 0x20, cluster 2, size 40. -/
def c2record : List Nat :=
  [0xE5, 65, 66, 32, 32, 32, 32, 32, 32, 32, 32, 0x20] ++
  List.replicate 10 0 ++ [0, 0, 0, 0, 2, 0, 40, 0, 0, 0]

/-- A 96-byte flat image for `tinyBpb`: reserved sector, all-zero FAT sector,
and the deleted record as the single root entry. -/
def c2buf : List Nat := List.replicate 64 0 ++ c2record

/-- The deleted entry `readDeletedFiles` reports for `c2buf`. -/
def c2entry : DeletedEntry :=
  { name := "?AB", shortName := "?AB", attr := 0x20, isDeleted := true,
    size := 40, cluster := 2, date := "1980-00-00", time := "00:00",
    recoverable := true, reason := "2 clusters free" }

/-- A degenerate FAT geometry whose root directory starts at offset 0 of the
flat image (no reserved sectors, no FATs), for the root-region locality
witness. -/
def c9bpb : Bpb :=
  { bytesPerSector := 32, sectorsPerCluster := 1, reservedSectors := 0,
    fatCount := 0, rootEntries := 1, totalSectors := 0, sectorsPerFAT := 0 }

/-- Two 64-byte flat images agreeing on the root region (bytes 0..31) and
differing everywhere after it. -/
def c9buf1 : List Nat := c2record ++ List.replicate 32 0

def c9buf2 : List Nat := c2record ++ List.replicate 32 7

/-- The stat of a present, 100-byte, unparseable image file. -/
def c4stat : FileStat := { present := true, size := 100, mtimeMs := 7 }

/-- 100 zero bytes: shorter than 256, so `parseDisk` fails `File too small`. -/
def c4bytes : List Nat := List.replicate 100 0

/-- A 300-byte track slot declaring three sectors of sizes 40, 128, 128: the
second crosses the 300-byte boundary and is truncated; the third is unplaced. -/
def c10buf : List Nat :=
  List.replicate 21 0 ++ [3] ++ [0, 0] ++
  [0, 0, 1, 0, 0, 0, 40, 0] ++ [0, 0, 2, 0, 0, 0, 0, 0] ++
  [0, 0, 3, 0, 0, 0, 0, 0] ++
  List.replicate 208 0 ++ List.replicate 44 0

def c10s0 : SectorEntry :=
  { index := 0, C := 0, H := 0, R := 1, N := 0, ST1 := 0, ST2 := 0, size := 40,
    expectedSize := 128, hasError := false, errorFlags := [],
    dataOffset := some 256, truncated := false }

def c10s1 : SectorEntry :=
  { index := 1, C := 0, H := 0, R := 2, N := 0, ST1 := 0, ST2 := 0, size := 128,
    expectedSize := 128, hasError := false, errorFlags := [],
    dataOffset := some 296, truncated := true }

def c10s2 : SectorEntry :=
  { index := 2, C := 0, H := 0, R := 3, N := 0, ST1 := 0, ST2 := 0, size := 128,
    expectedSize := 128, hasError := false, errorFlags := [],
    dataOffset := none, truncated := false }

def c10td : TrackData :=
  { trackHeaderSig := "", trackNo := 0, sideNo := 0, dataRate := 0,
    recMode := 0, sectorSizeCode := 0, sectorCount := 3, gap3 := 0, filler := 0,
    sectors := [c10s0, c10s1, c10s2] }

def c10disk : Disk :=
  { format := "EDSK", creator := "", tracks := 1, sides := 1,
    trackSizeTable := [300], trackIndex :=
      [{ track := 0, side := 0, offset := some 0, size := 300, missing := false,
         sectorCount := 3, sectors := [c10s0, c10s1, c10s2] }],
    filesystem := .unknown }

/-- LFN fragment, sequence 2 with the last flag (byte 0 = 0x42), characters
`FG` then a 0x0000 terminator. -/
def c8frag2 : List Nat :=
  [0x42, 70, 0, 71, 0, 0, 0] ++ List.replicate 4 0 ++ [0x0F] ++
  List.replicate 20 0

/-- LFN fragment, sequence 1 (byte 0 = 0x01), characters `DE` then 0x0000. -/
def c8frag1 : List Nat :=
  [0x01, 68, 0, 69, 0, 0, 0] ++ List.replicate 4 0 ++ [0x0F] ++
  List.replicate 20 0

/-- The 8.3 entry `A` following the two fragments. -/
def c8short : List Nat :=
  [65] ++ List.replicate 7 32 ++ List.replicate 3 32 ++ [0x20] ++
  List.replicate 14 0 ++ [2, 0] ++ [4, 0, 0, 0]

/-- The `parseDirEntries` scan restated at record granularity: the directory
region presented as its list of 32-byte records instead of a flat buffer with
an offset cursor.  Each step is the body of `parseDirEntriesAux` with `off = 0`
inside the current record; `parseDirEntriesAux_records` proves the two agree on
any buffer made of 32-byte records. -/
def pdeRecs : List (Option String) → List (List Nat) → List DirEntry
  | _, [] => []
  | lfnParts, r :: rs =>
    let first := readU8 r 0
    if first = 0 then []
    else if first = 0xE5 then pdeRecs [] rs
    else
      let attr := readU8 r 11
      if attr = 0x0F then
        let seq := first &&& 0x3F
        let isLast := first &&& 0x40 ≠ 0
        let chars := extractLFNChars r 0
        let base := if isLast then [] else lfnParts
        let parts :=
          if seq = 0 then base else setSlot base (seq - 1) (String.mk chars)
        pdeRecs parts rs
      else
        mkDirEntry r 0 lfnParts :: pdeRecs [] rs

/-! ## Helper lemmas -/

set_option maxRecDepth 10000

theorem jsOr_pos (x d : Nat) (hd : 0 < d) : 0 < jsOr x d := by
  unfold jsOr; split <;> omega

theorem clusterBytesOf_pos (b : Bpb) : 0 < clusterBytesOf b := by
  unfold clusterBytesOf bpsOf spcOf
  exact Nat.mul_pos (jsOr_pos _ _ (by omega)) (jsOr_pos _ _ (by omega))

/-- A FAT self-loop keeps the `readSubdir` cluster-chain loop running forever:
whatever the fuel, it is exhausted. -/
theorem readSubdirGo_self_loop (flat fat : List Nat) (ds cb c : Nat)
    (hc : 2 ≤ c ∧ c < 0xFF8) (hfit : ds + (c - 2) * cb + cb ≤ flat.length)
    (hfat : fat.getD c 0 = c) :
    ∀ fuel, readSubdirGo flat fat ds cb fuel c = none := by
  intro fuel
  induction fuel with
  | zero =>
    simp only [readSubdirGo, if_pos hc]
    rw [if_neg (by omega)]
  | succ n ih =>
    simp only [readSubdirGo, if_pos hc]
    rw [if_neg (by omega), hfat, ih]
    rfl

/-- `n ≤ freeRun fat c n` holds exactly when the whole `n`-budget run from `c`
is in range and free. -/
theorem freeRun_ge_iff (fat : List Nat) (n : Nat) :
    ∀ c, n ≤ freeRun fat c n ↔
      ∀ j, j < n → c + j < fat.length ∧ fat.getD (c + j) 0 = 0 := by
  induction n with
  | zero => intro c; simp
  | succ n ih =>
    intro c
    simp only [freeRun]
    split_ifs with hlen hz
    · constructor
      · intro h; exact absurd h (by omega)
      · intro h; exact absurd (by simpa using (h 0 (Nat.succ_pos n)).2) hz
    · push_neg at hz
      constructor
      · intro h j hj
        rcases Nat.eq_zero_or_pos j with rfl | hjpos
        · exact ⟨by omega, by simpa using hz⟩
        · obtain ⟨h1, h2⟩ := ((ih (c + 1)).mp (by omega)) (j - 1) (by omega)
          have e : c + 1 + (j - 1) = c + j := by omega
          rw [e] at h1 h2
          exact ⟨h1, h2⟩
      · intro h
        have hrec : n ≤ freeRun fat (c + 1) n := by
          refine (ih (c + 1)).mpr ?_
          intro j hj
          have hj1 := h (j + 1) (by omega)
          have e : c + (j + 1) = c + 1 + j := by omega
          rw [e] at hj1
          exact hj1
        omega
    · constructor
      · intro h; exact absurd h (by omega)
      · intro h; exact absurd (h 0 (Nat.succ_pos n)).1 (by omega)

/-- The spec-side run length agrees with the source's counting loop. -/
theorem freeRunSpec_eq_freeRun (fat : List Nat) (n : Nat) :
    ∀ c, freeRunSpec fat c n = freeRun fat c n := by
  induction n with
  | zero => intro c; simp [freeRunSpec, freeRun]
  | succ n ih =>
    intro c
    unfold freeRunSpec at ih ⊢
    rw [List.range'_succ, List.takeWhile_cons]
    by_cases h : fatFreeAt fat c
    · rw [if_pos (by simpa using h)]
      simp only [List.length_cons, ih (c + 1), freeRun]
      rw [if_pos h.1, if_neg (fun hne => hne h.2)]
    · rw [if_neg (by simpa using h)]
      simp only [List.length_nil, freeRun]
      unfold fatFreeAt at h
      push_neg at h
      by_cases hlen : c < fat.length
      · rw [if_pos hlen, if_pos (h hlen)]
      · rw [if_neg hlen]

/-- Every entry reported by the deleted-entry scan has `cluster ≥ 2` and
`size > 0` (the scan skips the others). -/
theorem parseDeletedEntriesAux_cluster_size (flat : List Nat) (fuel : Nat) :
    ∀ parts off e, e ∈ parseDeletedEntriesAux flat parts off fuel →
      2 ≤ e.cluster ∧ 0 < e.size := by
  induction fuel with
  | zero => intro parts off e h; simp [parseDeletedEntriesAux] at h
  | succ n ih =>
    intro parts off e h
    simp only [parseDeletedEntriesAux] at h
    split_ifs at h with h1 h2 h3 h4 h5 h6 h7
    · simp at h
    · simp at h
    · exact ih _ _ _ h
    · exact ih _ _ _ h
    · exact ih _ _ _ h
    · exact ih _ _ _ h
    · exact ih _ _ _ h
    · rcases List.mem_cons.mp h with rfl | h'
      · push_neg at h7; omega
      · exact ih _ _ _ h'

/-- Characterisation of the recoverability assessment for one deleted entry. -/
theorem assessDeleted_chars (fat : List Nat) (cb : Nat) (hcb : 0 < cb)
    (e0 : DeletedEntry) (hsz : 0 < e0.size) :
    ((assessDeleted fat cb e0).recoverable = true ↔
      ∀ i, e0.cluster ≤ i → i < e0.cluster + (e0.size + cb - 1) / cb →
        fatFreeAt fat i)
    ∧ (assessDeleted fat cb e0).reason =
      (if fat.length ≤ e0.cluster ∨ fat.getD e0.cluster 0 ≠ 0 then
        "Start cluster reallocated"
      else if (assessDeleted fat cb e0).recoverable then
        toString ((e0.size + cb - 1) / cb) ++ " cluster" ++
          (if 1 < (e0.size + cb - 1) / cb then "s" else "") ++ " free"
      else
        "Only " ++ toString (freeRunSpec fat e0.cluster ((e0.size + cb - 1) / cb)) ++
          "/" ++ toString ((e0.size + cb - 1) / cb) ++ " clusters free")
    ∧ (assessDeleted fat cb e0).cluster = e0.cluster
    ∧ (assessDeleted fat cb e0).size = e0.size := by
  have hN : 1 ≤ (e0.size + cb - 1) / cb := by
    rw [Nat.one_le_div_iff hcb]; omega
  have conv : (∀ j, j < (e0.size + cb - 1) / cb →
      e0.cluster + j < fat.length ∧ fat.getD (e0.cluster + j) 0 = 0) ↔
      (∀ i, e0.cluster ≤ i → i < e0.cluster + (e0.size + cb - 1) / cb →
        fatFreeAt fat i) := by
    constructor
    · intro h i h1 h2
      have h3 := h (i - e0.cluster) (by omega)
      have e : e0.cluster + (i - e0.cluster) = i := by omega
      rw [e] at h3
      exact h3
    · intro h j hj
      exact h (e0.cluster + j) (by omega) (by omega)
  by_cases hbad : fat.length ≤ e0.cluster ∨ fat.getD e0.cluster 0 ≠ 0
  · have ha : assessDeleted fat cb e0 =
        { e0 with recoverable := false, reason := "Start cluster reallocated" } := by
      simp only [assessDeleted]
      rw [if_pos hbad]
    rw [ha]
    refine ⟨?_, ?_, rfl, rfl⟩
    · refine iff_of_false (by simp) ?_
      intro h
      obtain ⟨hlt, hz⟩ := h e0.cluster (le_refl _) (by omega)
      rcases hbad with hb | hb
      · omega
      · exact hb hz
    · rw [if_pos hbad]
  · by_cases hfree : (e0.size + cb - 1) / cb ≤
        freeRun fat e0.cluster ((e0.size + cb - 1) / cb)
    · have ha : assessDeleted fat cb e0 = { e0 with recoverable := true, reason := (toString ((e0.size + cb - 1) / cb) ++ " cluster" ++ (if 1 < (e0.size + cb - 1) / cb then "s" else "") ++ " free") } := by
        simp only [assessDeleted]
        rw [if_neg hbad, if_pos hfree]
      rw [ha]
      refine ⟨?_, ?_, rfl, rfl⟩
      · exact iff_of_true rfl
          (conv.mp ((freeRun_ge_iff fat _ e0.cluster).mp hfree))
      · rw [if_neg hbad]
        simp
    · have ha : assessDeleted fat cb e0 = { e0 with recoverable := false, reason := ("Only " ++ toString (freeRun fat e0.cluster ((e0.size + cb - 1) / cb)) ++ "/" ++ toString ((e0.size + cb - 1) / cb) ++ " clusters free") } := by
        simp only [assessDeleted]
        rw [if_neg hbad, if_neg hfree]
      rw [ha]
      refine ⟨?_, ?_, rfl, rfl⟩
      · refine iff_of_false (by simp) ?_
        intro h
        exact hfree ((freeRun_ge_iff fat _ e0.cluster).mpr (conv.mpr h))
      · rw [if_neg hbad]
        simp [freeRunSpec_eq_freeRun]

/-! ## C1 — cluster-chain termination -/

/-- C1: the claim states that reading any cluster chain (both `readFileData`
and the subdirectory reads inside `readFATDirectory`) terminates after visiting
at most `totalClusters` clusters even for cyclic FATs.  The code violates this:
on the concrete 128-byte flat image `c1buf` under `tinyBpb` (whose FAT has
`totalClusters = 6` entries and maps cluster 2 to itself), the `readSubdir`
loop never exits — it exhausts every fuel bound — and `readFileData` for a
300-byte file starting at cluster 2 performs 10 cluster visits (returning 300
bytes read from the single-cluster cycle), more than `totalClusters = 6`. -/
theorem c1_cluster_chain_bug :
    (∀ fuel, readSubdirGo (buildFlatImage c1buf (flatDisk 128))
        (readFAT12Table (buildFlatImage c1buf (flatDisk 128)) tinyBpb)
        (dataStartOf tinyBpb) (clusterBytesOf tinyBpb) fuel 2 = none)
    ∧ (readFAT12Table (buildFlatImage c1buf (flatDisk 128)) tinyBpb).length = 6
    ∧ (readFileData c1buf (flatDisk 128) (.FAT tinyBpb) 2 300).map List.length =
        some 300
    ∧ readFileDataVisits (buildFlatImage c1buf (flatDisk 128))
        (readFAT12Table (buildFlatImage c1buf (flatDisk 128)) tinyBpb)
        (dataStartOf tinyBpb) (clusterBytesOf tinyBpb) 300 2 300 = 10 := by
  refine ⟨?_, by decide, by decide, by decide⟩
  exact readSubdirGo_self_loop _ _ _ _ 2 (by decide) (by decide) (by decide)

/-! ## C2 — recoverability classification -/

/-- C2: a deleted entry (which always has start cluster ≥ 2 and size > 0) is
classified recoverable by `readDeletedFiles` iff every FAT index in
`[c, c + ⌈size/clusterBytes⌉)` is in range and free; the reason string is the
plural-aware `"N cluster(s) free"` when recoverable, `"Start cluster
reallocated"` when the start cluster is out of range or its FAT entry nonzero,
and `"Only k/N clusters free"` otherwise, `k` being the run of in-range free
FAT entries from the start cluster. -/
theorem c2_recoverability (buf : List Nat) (disk : Disk) (b : Bpb)
    (e : DeletedEntry) (fat : List Nat) (N : Nat)
    (he : e ∈ readDeletedFiles buf disk (.FAT b))
    (hfat : fat = readFAT12Table (buildFlatImage buf disk) b)
    (hN : N = (e.size + clusterBytesOf b - 1) / clusterBytesOf b) :
    (e.recoverable = true ↔
      ∀ i, e.cluster ≤ i → i < e.cluster + N → fatFreeAt fat i)
    ∧ e.reason =
      (if fat.length ≤ e.cluster ∨ fat.getD e.cluster 0 ≠ 0 then
        "Start cluster reallocated"
      else if e.recoverable then
        toString N ++ " cluster" ++ (if 1 < N then "s" else "") ++ " free"
      else
        "Only " ++ toString (freeRunSpec fat e.cluster N) ++ "/" ++ toString N ++
          " clusters free") := by
  subst hfat
  simp only [readDeletedFiles] at he
  split_ifs at he with hguard
  · simp at he
  · simp only [parseDeletedEntries] at he
    obtain ⟨e0, he0, rfl⟩ := List.mem_map.mp he
    obtain ⟨hc2, hs⟩ := parseDeletedEntriesAux_cluster_size _ _ _ _ _ he0
    obtain ⟨Hiff, Hreason, Hclu, Hsz⟩ :=
      assessDeleted_chars (readFAT12Table (buildFlatImage buf disk) b)
        (clusterBytesOf b) (clusterBytesOf_pos b) e0 hs
    rw [Hsz] at hN
    subst hN
    rw [Hclu]
    exact ⟨Hiff, Hreason⟩

/-- Witness for C2 at the concrete image `c2buf`: the deleted entry `?AB`
(size 40, cluster 2, two free clusters needed) is reported recoverable with
reason `"2 clusters free"`. -/
theorem c2_recoverability_witness :
    c2entry ∈ readDeletedFiles c2buf (flatDisk 96) (.FAT tinyBpb)
    ∧ c2entry.reason =
      (if (readFAT12Table (buildFlatImage c2buf (flatDisk 96)) tinyBpb).length ≤
          c2entry.cluster ∨
          (readFAT12Table (buildFlatImage c2buf (flatDisk 96)) tinyBpb).getD
            c2entry.cluster 0 ≠ 0 then
        "Start cluster reallocated"
      else if c2entry.recoverable then
        toString 2 ++ " cluster" ++ (if 1 < (2 : Nat) then "s" else "") ++ " free"
      else
        "Only " ++ toString (freeRunSpec
            (readFAT12Table (buildFlatImage c2buf (flatDisk 96)) tinyBpb)
            c2entry.cluster 2) ++ "/" ++ toString 2 ++ " clusters free") := by
  refine ⟨by decide, ?_⟩
  exact (c2_recoverability c2buf (flatDisk 96) tinyBpb c2entry _ 2 (by decide)
    rfl (by decide)).2

/-! ## C3 — cancellation outcome -/

/-- C3 counterexample: the claim says a cancelled read resolves as a distinct
`Cancelled` kind rather than the generic failure.  In the code, a cancelled
read (SIGTERM sent, child closes with `code = null`) rejects with exactly the
same generic `gw read failed (code null): …` outcome as an uncancelled failing
read; the spec's classification of this close would be `cancelled`, which
differs from the `externalReadFailed` kind the outcome actually carries. -/
theorem c3_counterexample :
    (gwRun [.startRead, .abortSignal, .closeEvent none]).log =
      (gwRun [.startRead, .closeEvent none]).log
    ∧ (gwRun [.startRead, .abortSignal, .closeEvent none]).log =
      [.accepted, .readFailed "gw read failed (code null): "]
    ∧ outcomeKind (.readFailed "gw read failed (code null): ") =
      some .externalReadFailed
    ∧ specCloseKind true none = SpecReadKind.cancelled
    ∧ SpecReadKind.externalReadFailed ≠ SpecReadKind.cancelled := by decide

/-- C3 (amended): when an in-flight read is cancelled, the child is sent the
terminate signal and the read rejects with the *generic*
`gw read failed (code N): stderr` failure (there is no distinct `Cancelled`
kind); the active-read handle is cleared and a subsequent read is accepted. -/
theorem c3_amended (code : Option Nat) (hc : code ≠ some 0) :
    (gwRun [.startRead, .abortSignal, .closeEvent code]).killSent = true
    ∧ (gwRun [.startRead, .abortSignal, .closeEvent code]).activeProc = false
    ∧ (gwRun [.startRead, .abortSignal, .closeEvent code]).log =
        [.accepted, .readFailed (gwFailMsg code "")]
    ∧ (gwStep (gwRun [.startRead, .abortSignal, .closeEvent code]) .startRead).log =
        [.accepted, .readFailed (gwFailMsg code ""), .accepted]
    ∧ (gwStep (gwRun [.startRead, .abortSignal, .closeEvent code]) .startRead).activeProc =
        true := by
  simp [gwRun, gwStep, hc]

/-- Witness for C3 (amended) at `code = null` (the close code after SIGTERM). -/
theorem c3_amended_witness :
    ((none : Option Nat) ≠ some 0)
    ∧ (gwRun [.startRead, .abortSignal, .closeEvent none]).killSent = true
    ∧ (gwRun [.startRead, .abortSignal, .closeEvent none]).log =
        [.accepted, .readFailed (gwFailMsg none "")] := by
  have h := c3_amended none (by decide)
  exact ⟨by decide, h.1, h.2.2.1⟩

/-! ## C4 — caching of parse failures -/

/-- C4 counterexample: the claim says a parse failure is stored in the disk
cache under the filename so a second access does not reparse.  On the concrete
unparseable file `c4bytes`, `loadDisk` returns the `{error, name, size}` object
but leaves the cache without any entry for the name, and a second access with
the unchanged cache runs the parser again. -/
theorem c4_counterexample :
    (loadDisk c4stat c4bytes "bad.dsk" []).1 =
      some (.errEntry "File too small" "bad.dsk" 100)
    ∧ (loadDisk c4stat c4bytes "bad.dsk" []).2.1 = []
    ∧ cacheGet (loadDisk c4stat c4bytes "bad.dsk" []).2.1 "bad.dsk" = none
    ∧ (loadDisk c4stat c4bytes "bad.dsk"
        (loadDisk c4stat c4bytes "bad.dsk" []).2.1).2.2 = true := by decide

/-- C4 (amended): for a present, non-empty file whose bytes fail to parse (and
no fresh cache hit), `loadDisk` returns the error entry `{error, name, size}`
but does **not** cache it — the cache is returned unchanged and a second access
parses again. -/
theorem c4_amended (stat : FileStat) (bytes : List Nat) (name : String)
    (cache : List (String × CacheEntry)) (msg : String)
    (hp : stat.present = true) (hs : stat.size ≠ 0)
    (hmiss : ∀ c, cacheGet cache name = some c → c.mtime ≠ stat.mtimeMs)
    (hparse : parseDisk bytes = .error msg) :
    loadDisk stat bytes name cache =
      (some (.errEntry msg name stat.size), cache, true)
    ∧ (loadDisk stat bytes name (loadDisk stat bytes name cache).2.1).2.2 =
        true := by
  have hmain : loadDisk stat bytes name cache =
      (some (.errEntry msg name stat.size), cache, true) := by
    unfold loadDisk
    rw [hp]
    simp only [Bool.not_true, Bool.false_eq_true, if_false, if_neg hs]
    cases hcg : cacheGet cache name with
    | none => unfold loadDiskParse; rw [hparse]
    | some c =>
      dsimp only
      rw [if_neg (hmiss c hcg)]
      unfold loadDiskParse; rw [hparse]
  refine ⟨hmain, ?_⟩
  rw [hmain, hmain]

/-- Witness for C4 (amended) at the concrete failing file. -/
theorem c4_amended_witness :
    parseDisk c4bytes = Except.error "File too small"
    ∧ loadDisk c4stat c4bytes "bad.dsk" [] =
        (some (.errEntry "File too small" "bad.dsk" c4stat.size), [], true) := by
  refine ⟨by decide, ?_⟩
  exact (c4_amended c4stat c4bytes "bad.dsk" [] "File too small" (by decide)
    (by decide) (by intro c hc; simp [cacheGet] at hc) (by decide)).1

/-! ## Container-parser lemmas -/

theorem getD_mem {α : Type} (l : List α) (n : Nat) (d : α) (h : n < l.length) :
    l.getD n d ∈ l := by
  induction l generalizing n with
  | nil => simp at h
  | cons a l ih =>
    cases n with
    | zero => simp
    | succ n =>
      simp only [List.getD_cons_succ]
      exact List.mem_cons_of_mem _ (ih n (by simpa using h))

theorem sizesSum_zero (l : List SectorEntry) : sizesSum l 0 = 0 := rfl

theorem sizesSum_cons_succ (a : SectorEntry) (l : List SectorEntry) (j : Nat) :
    sizesSum (a :: l) (j + 1) = a.size + sizesSum l j := by
  simp [sizesSum]

/-- Placement only assigns `dataOffset`/`truncated`; the per-index sizes and
prefix sums are untouched. -/
theorem placeSectors_size_stats (tEnd : Nat) :
    ∀ (l : List SectorEntry) (dOff j : Nat),
      sizesSum (placeSectors dOff tEnd l) j = sizesSum l j
      ∧ ((placeSectors dOff tEnd l).getD j default).size =
          (l.getD j default).size := by
  intro l
  induction l with
  | nil => intro dOff j; simp [placeSectors]
  | cons sec rest ih =>
    intro dOff j
    simp only [placeSectors]
    split_ifs with hov
    · cases j with
      | zero => exact ⟨rfl, rfl⟩
      | succ j' =>
        refine ⟨?_, rfl⟩
        rw [sizesSum_cons_succ, sizesSum_cons_succ]
    · cases j with
      | zero => exact ⟨rfl, rfl⟩
      | succ j' =>
        obtain ⟨ih1, ih2⟩ := ih (dOff + sec.size) j'
        refine ⟨?_, ?_⟩
        · rw [sizesSum_cons_succ, sizesSum_cons_succ, ih1]
        · simpa using ih2

theorem placeSectors_length (tEnd : Nat) :
    ∀ (l : List SectorEntry) (dOff : Nat),
      (placeSectors dOff tEnd l).length = l.length := by
  intro l
  induction l with
  | nil => intro dOff; rfl
  | cons sec rest ih =>
    intro dOff
    simp only [placeSectors]
    split_ifs with hov
    · simp
    · simp [ih]

/-- Every placed, non-truncated sector lies between the running offset and the
track end. -/
theorem placeSectors_mem_bounds (tEnd : Nat) :
    ∀ (l : List SectorEntry) (dOff : Nat),
      (∀ x ∈ l, x.dataOffset = none) →
      ∀ s ∈ placeSectors dOff tEnd l, s.truncated = false →
        ∀ d, s.dataOffset = some d → dOff ≤ d ∧ d + s.size ≤ tEnd := by
  intro l
  induction l with
  | nil => intro dOff _ s hs; simp [placeSectors] at hs
  | cons sec rest ih =>
    intro dOff hinit s hs htr d hd
    simp only [placeSectors] at hs
    split_ifs at hs with hov
    · rcases List.mem_cons.mp hs with rfl | hs'
      · simp at htr
      · rw [hinit s (List.mem_cons_of_mem _ hs')] at hd
        cases hd
    · rcases List.mem_cons.mp hs with rfl | hs'
      · have hdd : dOff = d := by simpa using hd
        subst hdd
        refine ⟨le_refl _, ?_⟩
        have hsz : ({ sec with dataOffset := some dOff } : SectorEntry).size =
            sec.size := rfl
        rw [hsz]
        omega
      · have h2 := ih (dOff + sec.size)
          (fun x hx => hinit x (List.mem_cons_of_mem _ hx)) s hs' htr d hd
        exact ⟨by omega, h2.2⟩

/-- The first sector whose placement crosses the track end is marked truncated
while keeping the cursor as its `dataOffset`; all later sectors stay unplaced. -/
theorem placeSectors_truncate_shape (tEnd : Nat) :
    ∀ (l : List SectorEntry) (dOff i : Nat),
      (∀ x ∈ l, x.dataOffset = none ∧ x.truncated = false) →
      i < l.length →
      (∀ j, j < i → dOff + sizesSum l j + (l.getD j default).size ≤ tEnd) →
      tEnd < dOff + sizesSum l i + (l.getD i default).size →
      ((placeSectors dOff tEnd l).getD i default).truncated = true
      ∧ ((placeSectors dOff tEnd l).getD i default).dataOffset =
          some (dOff + sizesSum l i)
      ∧ ∀ j, i < j → j < l.length →
          ((placeSectors dOff tEnd l).getD j default).dataOffset = none
          ∧ ((placeSectors dOff tEnd l).getD j default).truncated = false := by
  intro l
  induction l with
  | nil => intro dOff i _ hi; simp at hi
  | cons sec rest ih =>
    intro dOff i hinit hi hpre hov
    cases i with
    | zero =>
      rw [List.getD_cons_zero, sizesSum_zero] at hov
      have hov2 : tEnd < dOff + sec.size := by omega
      have hplaceEq : placeSectors dOff tEnd (sec :: rest) =
          ({ sec with dataOffset := some dOff, truncated := true } :: rest) := by
        simp only [placeSectors]
        rw [if_pos hov2]
      rw [hplaceEq]
      refine ⟨rfl, by simp [sizesSum_zero], ?_⟩
      intro j hj hjl
      cases j with
      | zero => omega
      | succ jj =>
        rw [List.getD_cons_succ]
        exact hinit (rest.getD jj default)
          (List.mem_cons_of_mem _ (getD_mem rest jj default
            (by simp only [List.length_cons] at hjl; omega)))
    | succ ii =>
      have h0 : dOff + sec.size ≤ tEnd := by
        have h := hpre 0 (Nat.succ_pos ii)
        rw [List.getD_cons_zero, sizesSum_zero] at h
        omega
      have hplaceEq : placeSectors dOff tEnd (sec :: rest) =
          ({ sec with dataOffset := some dOff } ::
            placeSectors (dOff + sec.size) tEnd rest) := by
        simp only [placeSectors]
        rw [if_neg (by omega)]
      have hpre2 : ∀ j, j < ii →
          dOff + sec.size + sizesSum rest j + (rest.getD j default).size ≤
            tEnd := by
        intro j hj
        have h := hpre (j + 1) (by omega)
        rw [sizesSum_cons_succ, List.getD_cons_succ] at h
        omega
      have hov2 : tEnd <
          dOff + sec.size + sizesSum rest ii + (rest.getD ii default).size := by
        rw [sizesSum_cons_succ, List.getD_cons_succ] at hov
        omega
      obtain ⟨ih1, ih2, ih3⟩ := ih (dOff + sec.size) ii
        (fun x hx => hinit x (List.mem_cons_of_mem _ hx))
        (by simp only [List.length_cons] at hi; omega) hpre2 hov2
      rw [hplaceEq]
      refine ⟨?_, ?_, ?_⟩
      · rw [List.getD_cons_succ]
        exact ih1
      · rw [List.getD_cons_succ, ih2, sizesSum_cons_succ]
        congr 1
        omega
      · intro j hj hjl
        cases j with
        | zero => omega
        | succ jj =>
          rw [List.getD_cons_succ]
          exact ih3 jj (by omega)
            (by simp only [List.length_cons] at hjl; omega)

/-- Every fresh descriptor is unplaced and untruncated. -/
theorem sectorPres_init (buf : List Nat) (off n : Nat) :
    ∀ x ∈ sectorPres buf off n, x.dataOffset = none ∧ x.truncated = false := by
  intro x hx
  obtain ⟨i, _, rfl⟩ := List.mem_map.mp hx
  exact ⟨rfl, rfl⟩

theorem sectorPres_length (buf : List Nat) (off n : Nat) :
    (sectorPres buf off n).length = n := by
  simp [sectorPres]

/-- Inversion of `parseTrack`: the sector list is the placement of the fresh
descriptor list, one per declared sector. -/
theorem parseTrack_sectors (buf : List Nat) (off sz : Nat) (td : TrackData)
    (h : parseTrack buf off sz = .ok td) :
    td.sectorCount = readU8 buf (off + 0x15)
    ∧ td.sectors = placeSectors (off + 256) (off + sz)
        (sectorPres buf off (readU8 buf (off + 0x15))) := by
  simp only [parseTrack] at h
  split_ifs at h with hsm
  injection h with h
  subst h
  exact ⟨rfl, rfl⟩

/-- Every `.ok` result of the walk has one entry per slot. -/
theorem walkTracks_length (buf : List Nat) :
    ∀ (slots : List (Nat × Nat × Nat)) (off : Nat) (entries : List TrackEntry),
      walkTracks buf slots off = .ok entries → entries.length = slots.length := by
  intro slots
  induction slots with
  | nil =>
    intro off entries h
    simp only [walkTracks] at h
    injection h with h
    subst h
    rfl
  | cons slot rest ih =>
    intro off entries h
    obtain ⟨t, s, sz⟩ := slot
    simp only [walkTracks] at h
    split_ifs at h with h0 hoob
    · cases hw : walkTracks buf rest off with
      | error m => rw [hw] at h; cases h
      | ok es =>
        rw [hw] at h
        simp only [Except.map] at h
        injection h with h
        subst h
        simp [ih off es hw]
    · cases hp : parseTrack buf off sz with
      | error m => rw [hp] at h; cases h
      | ok td =>
        rw [hp] at h
        cases hw : walkTracks buf rest (off + sz) with
        | error m => rw [hw] at h; simp [Except.bind, Except.map] at h
        | ok es =>
          rw [hw] at h
          simp only [Except.bind, Except.map] at h
          injection h with h
          subst h
          simp [ih (off + sz) es hw]

/-- Every non-missing entry produced by the walk comes from a successful
`parseTrack` at its recorded offset and size. -/
theorem walkTracks_mem (buf : List Nat) :
    ∀ (slots : List (Nat × Nat × Nat)) (off : Nat) (entries : List TrackEntry),
      walkTracks buf slots off = .ok entries →
      ∀ e ∈ entries, e.missing = true ∨
        ∃ o sz td, parseTrack buf o sz = .ok td ∧
          e.offset = some o ∧ e.size = sz ∧ e.sectors = td.sectors ∧
          e.sectorCount = td.sectorCount := by
  intro slots
  induction slots with
  | nil =>
    intro off entries h e he
    simp only [walkTracks] at h
    injection h with h
    subst h
    simp at he
  | cons slot rest ih =>
    intro off entries h e he
    obtain ⟨t, s, sz⟩ := slot
    simp only [walkTracks] at h
    split_ifs at h with h0 hoob
    · cases hw : walkTracks buf rest off with
      | error m => rw [hw] at h; cases h
      | ok es =>
        rw [hw] at h
        simp only [Except.map] at h
        injection h with h
        subst h
        rcases List.mem_cons.mp he with rfl | he'
        · left; rfl
        · exact ih off es hw e he'
    · cases hp : parseTrack buf off sz with
      | error m => rw [hp] at h; cases h
      | ok td =>
        rw [hp] at h
        cases hw : walkTracks buf rest (off + sz) with
        | error m => rw [hw] at h; simp [Except.bind, Except.map] at h
        | ok es =>
          rw [hw] at h
          simp only [Except.bind, Except.map] at h
          injection h with h
          subst h
          rcases List.mem_cons.mp he with rfl | he'
          · right; exact ⟨off, sz, td, hp, rfl, rfl, rfl, rfl⟩
          · exact ih (off + sz) es hw e he'

theorem trackSlots_length (tracks sides : Nat) (table : List Nat) :
    (trackSlots tracks sides table).length = tracks * sides := by
  unfold trackSlots
  induction tracks with
  | zero => simp
  | succ n ih =>
    rw [List.range_succ, List.flatMap_append]
    simp only [List.length_append, ih]
    simp [Nat.succ_mul]

/-- Unpacking `Except.map f x = .ok y`. -/
theorem except_map_ok {ε α β : Type} (f : α → β) (x : Except ε α) (y : β)
    (h : Except.map f x = .ok y) : ∃ a, x = .ok a ∧ y = f a := by
  cases x with
  | error e => simp [Except.map] at h
  | ok a =>
    refine ⟨a, rfl, ?_⟩
    simp only [Except.map] at h
    injection h with h
    exact h.symm

/-- Inversion of `parseDisk`: the track index is a successful walk over the
row-major slots, and it has `tracks × sides` entries. -/
theorem parseDisk_trackIndex (buf : List Nat) (disk : Disk)
    (h : parseDisk buf = .ok disk) :
    (∃ slots : List (Nat × Nat × Nat),
      walkTracks buf slots 256 = .ok disk.trackIndex)
    ∧ disk.trackIndex.length = disk.tracks * disk.sides := by
  simp only [parseDisk] at h
  split_ifs at h with h1 h2 h3 h4
  all_goals
    obtain ⟨es, hw, hdisk⟩ := except_map_ok _ _ _ h
    subst hdisk
    refine ⟨⟨_, hw⟩, ?_⟩
    show es.length = readU8 buf 0x30 * readU8 buf 0x31
    rw [walkTracks_length buf _ _ _ hw]
    exact trackSlots_length _ _ _

/-! ## C6 — sector placement invariant -/

/-- C6: on every parsed image, every sector of a non-missing track that is not
truncated and has a (non-null) data offset `d` satisfies
`trackOffset + 256 ≤ d` and `d + size ≤ trackOffset + trackSize`.  (Sectors
following a truncated one have `dataOffset = null`, i.e. no placement, per the
spec's "undefined placement" caveat.) -/
theorem c6_sector_placement (buf : List Nat) (disk : Disk) (t : TrackEntry)
    (sec : SectorEntry) (o d : Nat)
    (hdisk : parseDisk buf = Except.ok disk) (ht : t ∈ disk.trackIndex)
    (hm : t.missing = false) (hs : sec ∈ t.sectors)
    (htr : sec.truncated = false) (hd : sec.dataOffset = some d)
    (ho : t.offset = some o) :
    o + 256 ≤ d ∧ d + sec.size ≤ o + t.size := by
  obtain ⟨⟨slots, hw⟩, _⟩ := parseDisk_trackIndex buf disk hdisk
  rcases walkTracks_mem buf slots 256 _ hw t ht with
    hmiss | ⟨o', sz, td, hp, ho', hsz, hsecs, _⟩
  · rw [hmiss] at hm; cases hm
  · rw [ho'] at ho
    injection ho with ho''
    subst ho''
    subst hsz
    obtain ⟨_, hplace⟩ := parseTrack_sectors buf o' t.size td hp
    rw [hsecs, hplace] at hs
    exact placeSectors_mem_bounds (o' + t.size) _ (o' + 256)
      (fun x hx => (sectorPres_init buf o' _ x hx).1) sec hs htr d hd

/-- Witness for C6 at the concrete 768-byte EDSK image: its single sector at
`dataOffset = 512` of size 256 sits inside the track slot `[256, 768)`. -/
theorem c6_sector_placement_witness :
    parseDisk edskBuf = Except.ok edskDisk
    ∧ edskSector.dataOffset = some 512
    ∧ (256 + 256 ≤ 512 ∧ 512 + edskSector.size ≤ 256 + edskTrack.size) := by
  refine ⟨by decide, by decide, ?_⟩
  exact c6_sector_placement edskBuf edskDisk edskTrack edskSector 256 512
    (by decide) (by decide) (by decide) (by decide) (by decide) (by decide)
    (by decide)

/-! ## C7 — track walk -/

/-- C7: one step of the track walk.  A zero-size slot records a missing entry
and leaves the cursor unchanged; a nonzero slot fails `OutOfBounds` when
`cursor + slotSize` exceeds the buffer length, and otherwise parses the track
at the cursor and continues at `cursor + slotSize`.  (`parseDisk` runs this
walk from cursor 256 over the `(track, side)` slots in row-major order with
side varying fastest — see `trackSlots` and `parseDisk_trackIndex`.) -/
theorem c7_track_walk (buf : List Nat) (t s sz off : Nat)
    (rest : List (Nat × Nat × Nat)) :
    (walkTracks buf ((t, s, 0) :: rest) off =
      (walkTracks buf rest off).map (fun es => missingTrackEntry t s :: es))
    ∧ (sz ≠ 0 → buf.length < off + sz →
        walkTracks buf ((t, s, sz) :: rest) off =
          .error ("Track data out of bounds at track=" ++ toString t ++
            " side=" ++ toString s))
    ∧ (sz ≠ 0 → off + sz ≤ buf.length →
        walkTracks buf ((t, s, sz) :: rest) off =
          (parseTrack buf off sz).bind (fun td =>
            (walkTracks buf rest (off + sz)).map
              (fun es => mkTrackEntry t s off sz td :: es))) := by
  refine ⟨?_, ?_, ?_⟩
  · simp [walkTracks]
  · intro h1 h2
    simp only [walkTracks]
    rw [if_neg h1, if_pos h2]
  · intro h1 h2
    simp only [walkTracks]
    rw [if_neg h1, if_neg (by omega)]

/-- Witness for C7 on the concrete EDSK buffer: the missing-slot step, an
out-of-bounds failure for slot size 9999, and the successful step for the real
512-byte slot. -/
theorem c7_track_walk_witness :
    (walkTracks edskBuf [(0, 0, 0)] 256 =
      (walkTracks edskBuf [] 256).map (fun es => missingTrackEntry 0 0 :: es))
    ∧ (walkTracks edskBuf [(0, 0, 9999)] 256 =
        .error ("Track data out of bounds at track=" ++ toString 0 ++
          " side=" ++ toString 0))
    ∧ (walkTracks edskBuf [(0, 0, 512)] 256 =
        (parseTrack edskBuf 256 512).bind (fun td =>
          (walkTracks edskBuf [] (256 + 512)).map
            (fun es => mkTrackEntry 0 0 256 512 td :: es))) :=
  ⟨(c7_track_walk edskBuf 0 0 1 256 []).1,
   (c7_track_walk edskBuf 0 0 9999 256 []).2.1 (by decide) (by decide),
   (c7_track_walk edskBuf 0 0 512 256 []).2.2 (by decide) (by decide)⟩

/-! ## C10 — truncated sector placement and raw reads -/

/-- C10: when the declared sector sizes overflow the track slot, the first
sector whose placement crosses the boundary is marked truncated but still
carries the cursor value as a non-null `dataOffset`; all later sectors of the
track keep `dataOffset = null`.  `readSectorData` returns the byte range
`[dataOffset, dataOffset + size)` unconditionally — with no truncation check —
clamped only by the end of the image buffer. -/
theorem c10_truncation_and_read :
    (∀ (buf : List Nat) (off sz : Nat) (td : TrackData) (i : Nat),
      parseTrack buf off sz = .ok td →
      i < td.sectors.length →
      (∀ j, j < i →
        off + 256 + sizesSum td.sectors j + (td.sectors.getD j default).size ≤
          off + sz) →
      off + sz <
        off + 256 + sizesSum td.sectors i + (td.sectors.getD i default).size →
      ((td.sectors.getD i default).truncated = true
       ∧ (td.sectors.getD i default).dataOffset =
          some (off + 256 + sizesSum td.sectors i)
       ∧ ∀ j, i < j → j < td.sectors.length →
          (td.sectors.getD j default).dataOffset = none
          ∧ (td.sectors.getD j default).truncated = false))
    ∧ (∀ (buf : List Nat) (disk : Disk) (track side sectorR : Nat)
        (trk : TrackEntry) (sec : SectorEntry) (d : Nat),
        disk.trackIndex.find? (fun x => x.track == track && x.side == side) =
          some trk →
        trk.missing = false →
        trk.sectors.find? (fun x => x.R == sectorR) = some sec →
        sec.dataOffset = some d →
        readSectorData buf disk track side sectorR =
          some (bufSlice buf d sec.size)
        ∧ (bufSlice buf d sec.size).length =
            min sec.size (buf.length - d)) := by
  constructor
  · intro buf off sz td i hp hi hpre hov
    obtain ⟨_, hplace⟩ := parseTrack_sectors buf off sz td hp
    set pres := sectorPres buf off (readU8 buf (off + 0x15)) with hpres
    have hinit := sectorPres_init buf off (readU8 buf (off + 0x15))
    have hstats := fun j => placeSectors_size_stats (off + sz) pres (off + 256) j
    have hlen : td.sectors.length = pres.length := by
      rw [hplace, placeSectors_length]
    have hpre' : ∀ j, j < i →
        off + 256 + sizesSum pres j + (pres.getD j default).size ≤ off + sz := by
      intro j hj
      have := hpre j hj
      rw [hplace] at this
      rw [(hstats j).1, (hstats j).2] at this
      exact this
    have hov' : off + sz <
        off + 256 + sizesSum pres i + (pres.getD i default).size := by
      rw [hplace] at hov
      rw [(hstats i).1, (hstats i).2] at hov
      exact hov
    obtain ⟨s1, s2, s3⟩ := placeSectors_truncate_shape (off + sz) pres
      (off + 256) i hinit (by omega) hpre' hov'
    rw [hplace]
    refine ⟨s1, ?_, ?_⟩
    · rw [s2, (hstats i).1]
    · intro j hj hjl
      rw [placeSectors_length] at hjl
      exact s3 j hj hjl
  · intro buf disk track side sectorR trk sec d hfind hm hsec hd
    constructor
    · simp only [readSectorData, hfind, hm, hsec, hd]
      rfl
    · simp [bufSlice, List.length_take, List.length_drop]

/-- Witness for C10 at the concrete 300-byte track slot: sector index 1
(sizes 40 then 128 starting at 256) crosses the boundary, is truncated with
`dataOffset = 296`, sector 2 stays unplaced, and `readSectorData` hands out
`[296, 296+128)` clamped to the 300-byte buffer (4 bytes). -/
theorem c10_truncation_and_read_witness :
    parseTrack c10buf 0 300 = Except.ok c10td
    ∧ (c10td.sectors.getD 1 default).truncated = true
    ∧ (c10td.sectors.getD 1 default).dataOffset =
        some (0 + 256 + sizesSum c10td.sectors 1)
    ∧ (c10td.sectors.getD 2 default).dataOffset = none
    ∧ readSectorData c10buf c10disk 0 0 2 = some (bufSlice c10buf 296 c10s1.size)
    ∧ (bufSlice c10buf 296 c10s1.size).length =
        min c10s1.size (c10buf.length - 296) := by
  have hA := c10_truncation_and_read.1 c10buf 0 300 c10td 1 (by decide)
    (by decide)
    (by decide)
    (by decide)
  have hB := c10_truncation_and_read.2 c10buf c10disk 0 0 2
    ((c10disk.trackIndex.getD 0 default)) c10s1 296 (by decide) (by decide)
    (by decide) (by decide)
  exact ⟨by decide, hA.1, hA.2.1, (hA.2.2 2 (by omega) (by decide)).1,
    hB.1, hB.2⟩

/-! ## C5 — flat image length -/

theorem sumMap_congr {α : Type} (f g : α → Nat) :
    ∀ l : List α, (∀ x ∈ l, f x = g x) → (l.map f).sum = (l.map g).sum := by
  intro l
  induction l with
  | nil => intro _; rfl
  | cons a l ih =>
    intro h
    simp only [List.map_cons, List.sum_cons]
    rw [h a (by simp), ih (fun x hx => h x (by simp [hx]))]

theorem sumMap_const {α : Type} (f : α → Nat) (c : Nat) :
    ∀ l : List α, (∀ x ∈ l, f x = c) → (l.map f).sum = l.length * c := by
  intro l
  induction l with
  | nil => intro _; simp
  | cons a l ih =>
    intro h
    simp only [List.map_cons, List.sum_cons, List.length_cons]
    rw [h a (by simp), ih (fun x hx => h x (by simp [hx]))]
    ring

theorem mem_insertByR (s : SectorEntry) :
    ∀ (l : List SectorEntry) (x : SectorEntry),
      x ∈ insertByR s l ↔ x = s ∨ x ∈ l := by
  intro l
  induction l with
  | nil => intro x; simp [insertByR]
  | cons t ts ih =>
    intro x
    simp only [insertByR]
    split_ifs with hle
    · rw [List.mem_cons, ih, List.mem_cons]
      tauto
    · rw [List.mem_cons, List.mem_cons]

theorem mem_sortByR :
    ∀ (l : List SectorEntry) (x : SectorEntry), x ∈ sortByR l ↔ x ∈ l := by
  intro l
  induction l with
  | nil => intro x; simp [sortByR]
  | cons s ss ih =>
    intro x
    simp only [sortByR, mem_insertByR, ih, List.mem_cons]

theorem sumMap_insertByR (f : SectorEntry → Nat) (s : SectorEntry) :
    ∀ l : List SectorEntry,
      ((insertByR s l).map f).sum = f s + (l.map f).sum := by
  intro l
  induction l with
  | nil => simp [insertByR]
  | cons t ts ih =>
    simp only [insertByR]
    split_ifs with hle
    · simp only [List.map_cons, List.sum_cons, ih]
      omega
    · simp only [List.map_cons, List.sum_cons]

theorem sumMap_sortByR (f : SectorEntry → Nat) :
    ∀ l : List SectorEntry, ((sortByR l).map f).sum = (l.map f).sum := by
  intro l
  induction l with
  | nil => rfl
  | cons s ss ih =>
    simp only [sortByR, sumMap_insertByR, List.map_cons, List.sum_cons, ih]

/-- An in-bounds (or unplaced) sector contributes exactly `size` bytes. -/
theorem sectorFlatPart_length (buf : List Nat) (sec : SectorEntry)
    (hbd : ∀ d, sec.dataOffset = some d → d + sec.size ≤ buf.length) :
    (sectorFlatPart buf sec).length = sec.size := by
  unfold sectorFlatPart
  cases hdo : sec.dataOffset with
  | none => simp
  | some d =>
    have := hbd d hdo
    simp only [bufSlice, List.length_take, List.length_drop]
    omega

/-- A non-missing track of uniform sector size `B` with all placed sectors
in bounds contributes `sectorCount × B` bytes to the flat image. -/
theorem trackPart_length (buf : List Nat) (secs : List SectorEntry) (B : Nat)
    (hsz : ∀ s ∈ secs, s.size = B)
    (hbd : ∀ s ∈ secs, ∀ d, s.dataOffset = some d → d + s.size ≤ buf.length) :
    (((sortByR secs).map (sectorFlatPart buf)).flatten).length =
      secs.length * B := by
  rw [List.length_flatten, List.map_map]
  have h1 : ∀ s ∈ sortByR secs,
      (List.length ∘ sectorFlatPart buf) s = (fun x => x.size) s := by
    intro s hs
    exact sectorFlatPart_length buf s (hbd s ((mem_sortByR secs s).mp hs))
  rw [sumMap_congr _ _ _ h1, sumMap_sortByR]
  exact sumMap_const _ _ _ hsz

/-- Non-missing parsed tracks list exactly `sectorCount` sectors. -/
theorem parseDisk_sectors_length (buf : List Nat) (disk : Disk)
    (hdisk : parseDisk buf = Except.ok disk) :
    ∀ t ∈ disk.trackIndex, t.missing = false →
      t.sectors.length = t.sectorCount := by
  intro t ht hm
  obtain ⟨⟨slots, hw⟩, _⟩ := parseDisk_trackIndex buf disk hdisk
  rcases walkTracks_mem buf slots 256 _ hw t ht with
    hmiss | ⟨o, sz, td, hp, _, _, hsecs, hcount⟩
  · rw [hmiss] at hm; cases hm
  · obtain ⟨hc, hplace⟩ := parseTrack_sectors buf o sz td hp
    rw [hsecs, hplace, placeSectors_length, sectorPres_length, hcount, hc]

/-- C5 (amended): for a parsed image in which every placed sector lies inside
the image buffer (`dataOffset + size ≤ bufferLength`) and the geometry is
homogeneous (every non-missing track has the first track's `sectorCount` and
per-sector size), the flat image has length
`tracks × sides × sectorsPerTrack × sectorBytes`; with no non-missing track
with sectors, the flat image is empty.  (Without the in-bounds condition the
claim fails: `Buffer.slice` clamps at the end of the buffer, see
`c5_counterexample`.) -/
theorem c5_flat_length (buf : List Nat) (disk : Disk)
    (hdisk : parseDisk buf = Except.ok disk)
    (hbound : ∀ t ∈ disk.trackIndex, ∀ s ∈ t.sectors, ∀ d,
      s.dataOffset = some d → d + s.size ≤ buf.length) :
    (∀ ft, disk.trackIndex.find?
        (fun t => !t.missing && t.sectors.length != 0) = some ft →
      (∀ t ∈ disk.trackIndex, t.missing = false →
        t.sectorCount = ft.sectorCount ∧
        ∀ s ∈ t.sectors, s.size = (ft.sectors.headD default).size) →
      (buildFlatImage buf disk).length =
        disk.tracks * disk.sides * ft.sectorCount *
          (ft.sectors.headD default).size)
    ∧ (disk.trackIndex.find?
        (fun t => !t.missing && t.sectors.length != 0) = none →
      buildFlatImage buf disk = []) := by
  constructor
  · intro ft hfind hhomog
    have hslen := parseDisk_sectors_length buf disk hdisk
    obtain ⟨_, hcount⟩ := parseDisk_trackIndex buf disk hdisk
    unfold buildFlatImage
    rw [hfind]
    dsimp only
    rw [List.length_flatten, List.map_map]
    have hpart : ∀ t ∈ disk.trackIndex,
        (List.length ∘ (fun trk =>
          if trk.missing then
            List.replicate (ft.sectorCount * (ft.sectors.headD default).size) 0
          else ((sortByR trk.sectors).map (sectorFlatPart buf)).flatten)) t =
        ft.sectorCount * (ft.sectors.headD default).size := by
      intro t ht
      by_cases hm : t.missing
      · simp [hm]
      · have hm' : t.missing = false := by simpa using hm
        simp only [Function.comp_apply, hm', Bool.false_eq_true, if_false]
        rw [trackPart_length buf t.sectors ((ft.sectors.headD default).size)
          (fun s hs => (hhomog t ht hm').2 s hs)
          (fun s hs => hbound t ht s hs)]
        rw [hslen t ht hm', (hhomog t ht hm').1]
    rw [sumMap_const _ _ _ hpart, hcount]
    ring
  · intro hnone
    unfold buildFlatImage
    rw [hnone]

/-- C5 counterexample: the claim as stated (no in-bounds condition) is false.
`c5buf` parses to a perfectly homogeneous one-track image whose single declared
128-byte sector overflows its 256-byte track slot: it is truncated with
`dataOffset = 512` at the very end of the 512-byte file, so its slice is empty
and the flat image has length 0 instead of
`tracks × sides × sectorsPerTrack × sectorBytes = 128`. -/
theorem c5_counterexample :
    parseDisk c5buf = Except.ok c5disk
    ∧ c5disk.trackIndex.find?
        (fun t => !t.missing && t.sectors.length != 0) = some c5track
    ∧ (∀ t ∈ c5disk.trackIndex, t.missing = false →
        t.sectorCount = c5track.sectorCount ∧
        ∀ s ∈ t.sectors, s.size = (c5track.sectors.headD default).size)
    ∧ c5track.sectorCount = 1 ∧ (c5track.sectors.headD default).size = 128
    ∧ c5disk.tracks = 1 ∧ c5disk.sides = 1
    ∧ (buildFlatImage c5buf c5disk).length = 0
    ∧ (0 : Nat) ≠ 1 * 1 * 1 * 128 := by decide

/-- Witness for C5 (amended) at the in-bounds 768-byte EDSK image: the flat
image length is `1 × 1 × 1 × 256 = 256`. -/
theorem c5_flat_length_witness :
    parseDisk edskBuf = Except.ok edskDisk
    ∧ (buildFlatImage edskBuf edskDisk).length = 256 := by
  have hb : ∀ t ∈ edskDisk.trackIndex, ∀ s ∈ t.sectors, ∀ d,
      s.dataOffset = some d → d + s.size ≤ edskBuf.length := by
    intro t ht s hs d hd
    have ht' : t = edskTrack := by
      have : edskDisk.trackIndex = [edskTrack] := rfl
      rw [this] at ht
      simpa using ht
    subst ht'
    have hs' : s = edskSector := by
      have : edskTrack.sectors = [edskSector] := rfl
      rw [this] at hs
      simpa using hs
    subst hs'
    have h512 : some 512 = some d := hd
    injection h512 with h512
    subst h512
    decide
  refine ⟨by decide, ?_⟩
  have h := (c5_flat_length edskBuf edskDisk (by decide) hb).1 edskTrack
    (by decide) (by decide)
  exact h.trans (by decide)

/-! ## C9: the deleted-file scan reads only the root-directory window -/

theorem getDAppendRight {α : Type} (d : α) :
    ∀ (l m : List α) (n : Nat), (l ++ m).getD (l.length + n) d = m.getD n d
  | [], m, n => by simp
  | a :: l, m, n => by
    rw [List.cons_append, List.length_cons,
      show l.length + 1 + n = (l.length + n) + 1 from by omega,
      List.getD_cons_succ]
    exact getDAppendRight d l m n

theorem getDAppendLeft {α : Type} (d : α) :
    ∀ (l m : List α) (n : Nat), n < l.length → (l ++ m).getD n d = l.getD n d
  | [], _, n, h => by simp at h
  | a :: l, m, 0, _ => by rw [List.cons_append, List.getD_cons_zero,
      List.getD_cons_zero]
  | a :: l, m, n + 1, h => by
    rw [List.cons_append, List.getD_cons_succ, List.getD_cons_succ]
    exact getDAppendLeft d l m n (by simp [List.length_cons] at h; omega)

theorem take_congr :
    ∀ (n : Nat) (f g : List Nat), f.length = g.length →
      (∀ j, j < n → f.getD j 0 = g.getD j 0) → f.take n = g.take n
  | 0, _, _, _, _ => rfl
  | n + 1, [], g, hlen, _ => by
    cases g with
    | nil => rfl
    | cons y ys => simp at hlen
  | n + 1, x :: xs, g, hlen, h => by
    cases g with
    | nil => simp at hlen
    | cons y ys =>
      have hx : x = y := by
        have := h 0 (by omega)
        rwa [List.getD_cons_zero, List.getD_cons_zero] at this
      rw [List.take_succ_cons, List.take_succ_cons, hx,
        take_congr n xs ys (by simpa using hlen)
          (fun j hj => by
            have := h (j + 1) (by omega)
            rwa [List.getD_cons_succ, List.getD_cons_succ] at this)]

theorem drop_take_congr :
    ∀ (a : Nat) (f g : List Nat) (n : Nat), f.length = g.length →
      (∀ j, a ≤ j → j < a + n → f.getD j 0 = g.getD j 0) →
      (f.drop a).take n = (g.drop a).take n
  | 0, f, g, n, hlen, h => by
    rw [List.drop_zero, List.drop_zero]
    exact take_congr n f g hlen (fun j hj => h j (by omega) (by omega))
  | a + 1, [], g, n, hlen, _ => by
    cases g with
    | nil => rfl
    | cons y ys => simp at hlen
  | a + 1, x :: xs, g, n, hlen, h => by
    cases g with
    | nil => simp at hlen
    | cons y ys =>
      rw [List.drop_succ_cons, List.drop_succ_cons]
      exact drop_take_congr a xs ys n (by simpa using hlen)
        (fun j h1 h2 => by
          have := h (j + 1) (by omega) (by omega)
          rwa [List.getD_cons_succ, List.getD_cons_succ] at this)

theorem bufSlice_congr (f g : List Nat) (a n : Nat)
    (hlen : f.length = g.length)
    (h : ∀ j, a ≤ j → j < a + n → f.getD j 0 = g.getD j 0) :
    bufSlice f a n = bufSlice g a n :=
  drop_take_congr a f g n hlen h

theorem mkDeletedEntry_congr (f g : List Nat) (off : Nat)
    (hlen : f.length = g.length)
    (h : ∀ j, off ≤ j → j < off + 32 → f.getD j 0 = g.getD j 0) :
    mkDeletedEntry f off = mkDeletedEntry g off := by
  have hb : ∀ a n, off ≤ a → a + n ≤ off + 32 →
      bufSlice f a n = bufSlice g a n :=
    fun a n h1 h2 =>
      bufSlice_congr f g a n hlen (fun j j1 j2 => h j (by omega) (by omega))
  have e22 : readU16LE f (off + 22) = readU16LE g (off + 22) := by
    unfold readU16LE
    rw [h (off + 22) (by omega) (by omega), h (off + 22 + 1) (by omega) (by omega)]
  have e24 : readU16LE f (off + 24) = readU16LE g (off + 24) := by
    unfold readU16LE
    rw [h (off + 24) (by omega) (by omega), h (off + 24 + 1) (by omega) (by omega)]
  unfold mkDeletedEntry readAscii readU8 readU16LE readU32LE parseDirEntryTime
  rw [hb (off + 1) 7 (by omega) (by omega), hb (off + 8) 3 (by omega) (by omega),
    h (off + 11) (by omega) (by omega),
    h (off + 28) (by omega) (by omega), h (off + 28 + 1) (by omega) (by omega),
    h (off + 28 + 2) (by omega) (by omega), h (off + 28 + 3) (by omega) (by omega),
    h (off + 26) (by omega) (by omega), h (off + 26 + 1) (by omega) (by omega)]
  rw [e22, e24]

theorem parseDeletedEntriesAux_congr (f g : List Nat) (hlen : f.length = g.length) :
    ∀ (fuel : Nat) (parts : List (Option String)) (off : Nat),
      (∀ j, off ≤ j → j < off + 32 * fuel → f.getD j 0 = g.getD j 0) →
      parseDeletedEntriesAux f parts off fuel =
        parseDeletedEntriesAux g parts off fuel
  | 0, _, _, _ => rfl
  | fuel + 1, parts, off, h => by
    have h32 : ∀ j, off ≤ j → j < off + 32 → f.getD j 0 = g.getD j 0 :=
      fun j h1 h2 => h j h1 (by omega)
    have e0 : readU8 f off = readU8 g off := by
      unfold readU8; exact h32 off (by omega) (by omega)
    have e11 : readU8 f (off + 11) = readU8 g (off + 11) := by
      unfold readU8; exact h32 (off + 11) (by omega) (by omega)
    have em : mkDeletedEntry f off = mkDeletedEntry g off :=
      mkDeletedEntry_congr f g off hlen h32
    have ih1 := parseDeletedEntriesAux_congr f g hlen fuel parts (off + 32)
      (fun j h1 h2 => h j (by omega) (by omega))
    have ih2 := parseDeletedEntriesAux_congr f g hlen fuel [] (off + 32)
      (fun j h1 h2 => h j (by omega) (by omega))
    simp only [parseDeletedEntriesAux]
    rw [hlen, e0, e11, em, ih1, ih2]

theorem deletedBase_assess (fat : List Nat) (cb : Nat) (e : DeletedEntry) :
    deletedBase (assessDeleted fat cb e) = deletedBase e := by
  simp only [assessDeleted]
  split_ifs <;> rfl

theorem map_congr_on {α β : Type} (f g : α → β) :
    ∀ l : List α, (∀ a ∈ l, f a = g a) → l.map f = l.map g
  | [], _ => rfl
  | a :: l, h => by
    rw [List.map_cons, List.map_cons, h a (List.mem_cons_self a l),
      map_congr_on f g l (fun b hb => h b (List.mem_cons_of_mem a hb))]

theorem readDeletedFiles_eq (buf : List Nat) (disk : Disk) (bp : Bpb) :
    readDeletedFiles buf disk (.FAT bp) =
      (if (buildFlatImage buf disk).length <
          rootStartOf bp + bp.rootEntries * 32 then []
       else (parseDeletedEntries (buildFlatImage buf disk) (rootStartOf bp)
          bp.rootEntries).map
         (assessDeleted (readFAT12Table (buildFlatImage buf disk) bp)
           (clusterBytesOf bp))) := rfl

/-- **C9.** `readDeletedFiles` examines only the root-directory window of the
flat image: if two images produce flat images of the same length that agree on
the `rootEntries * 32` bytes starting at `rootStart`, the deleted entries
reported (identified by everything except the FAT-dependent recoverability
assessment) are identical — in particular, deleted records inside a
subdirectory's data clusters can never be reported. -/
theorem c9_root_region_only (b1 b2 : List Nat) (d1 d2 : Disk) (bp : Bpb)
    (hlen : (buildFlatImage b1 d1).length = (buildFlatImage b2 d2).length)
    (hagree : ∀ j, rootStartOf bp ≤ j →
      j < rootStartOf bp + 32 * bp.rootEntries →
      (buildFlatImage b1 d1).getD j 0 = (buildFlatImage b2 d2).getD j 0) :
    (readDeletedFiles b1 d1 (.FAT bp)).map deletedBase =
      (readDeletedFiles b2 d2 (.FAT bp)).map deletedBase := by
  rw [readDeletedFiles_eq, readDeletedFiles_eq]
  by_cases hsz : (buildFlatImage b1 d1).length <
      rootStartOf bp + bp.rootEntries * 32
  · rw [if_pos hsz, if_pos (hlen ▸ hsz)]
  · rw [if_neg hsz, if_neg (by rw [← hlen]; exact hsz)]
    rw [List.map_map, List.map_map]
    rw [map_congr_on
      (deletedBase ∘ assessDeleted (readFAT12Table (buildFlatImage b1 d1) bp)
        (clusterBytesOf bp)) deletedBase _
      (fun a _ => deletedBase_assess (readFAT12Table (buildFlatImage b1 d1) bp)
        (clusterBytesOf bp) a)]
    rw [map_congr_on
      (deletedBase ∘ assessDeleted (readFAT12Table (buildFlatImage b2 d2) bp)
        (clusterBytesOf bp)) deletedBase _
      (fun a _ => deletedBase_assess (readFAT12Table (buildFlatImage b2 d2) bp)
        (clusterBytesOf bp) a)]
    unfold parseDeletedEntries
    rw [parseDeletedEntriesAux_congr (buildFlatImage b1 d1)
      (buildFlatImage b2 d2) hlen bp.rootEntries [] (rootStartOf bp)
      (fun j h1 h2 => hagree j h1 (by omega))]

theorem c9_root_region_only_witness :
    ((buildFlatImage c9buf1 (flatDisk 64)).length =
        (buildFlatImage c9buf2 (flatDisk 64)).length) ∧
      (readDeletedFiles c9buf1 (flatDisk 64) (.FAT c9bpb)).map deletedBase =
        (readDeletedFiles c9buf2 (flatDisk 64) (.FAT c9bpb)).map deletedBase := by
  have hwin : ∀ j, j < 32 →
      (buildFlatImage c9buf1 (flatDisk 64)).getD j 0 =
        (buildFlatImage c9buf2 (flatDisk 64)).getD j 0 := by decide
  have he : rootStartOf c9bpb + 32 * c9bpb.rootEntries = 32 := by decide
  exact ⟨by decide,
    c9_root_region_only c9buf1 c9buf2 (flatDisk 64) (flatDisk 64) c9bpb
      (by decide) (fun j h1 h2 => hwin j (he ▸ h2))⟩

/-! ## C8: long-file-name reassembly -/

theorem dropAppendLen {α : Type} :
    ∀ (l m : List α) (i : Nat), (l ++ m).drop (l.length + i) = m.drop i
  | [], m, i => by simp
  | a :: l, m, i => by
    rw [List.cons_append, List.length_cons,
      show l.length + 1 + i = (l.length + i) + 1 from by omega,
      List.drop_succ_cons]
    exact dropAppendLen l m i

theorem bufSlice_shift (pre r rest : List Nat) (a n : Nat)
    (h : a + n ≤ r.length) :
    bufSlice (pre ++ (r ++ rest)) (pre.length + a) n = bufSlice r a n := by
  unfold bufSlice
  rw [dropAppendLen, List.drop_append_of_le_length (by omega),
    List.take_append_of_le_length (by rw [List.length_drop]; omega)]

theorem getD_shift (pre r rest : List Nat) (k : Nat) (hk : k < r.length) :
    (pre ++ (r ++ rest)).getD (pre.length + k) 0 = r.getD k 0 := by
  rw [getDAppendRight, getDAppendLeft 0 r rest k hk]

theorem readU16LE_shift (pre r rest : List Nat) (p : Nat) (hp : p + 1 < r.length) :
    readU16LE (pre ++ (r ++ rest)) (pre.length + p) = readU16LE r p := by
  unfold readU16LE
  rw [show pre.length + p + 1 = pre.length + (p + 1) from by omega]
  rw [getD_shift pre r rest p (by omega), getD_shift pre r rest (p + 1) hp]

theorem readU32LE_shift (pre r rest : List Nat) (p : Nat) (hp : p + 3 < r.length) :
    readU32LE (pre ++ (r ++ rest)) (pre.length + p) = readU32LE r p := by
  unfold readU32LE
  rw [show pre.length + p + 1 = pre.length + (p + 1) from by omega,
    show pre.length + p + 2 = pre.length + (p + 2) from by omega,
    show pre.length + p + 3 = pre.length + (p + 3) from by omega]
  rw [getD_shift pre r rest p (by omega), getD_shift pre r rest (p + 1) (by omega),
    getD_shift pre r rest (p + 2) (by omega), getD_shift pre r rest (p + 3) hp]

theorem extractLFNRange_shift (pre r rest : List Nat) (hr : r.length = 32)
    (start : Nat) :
    ∀ (count j : Nat), start + (j + count) * 2 ≤ 32 →
      extractLFNRange (pre ++ (r ++ rest)) pre.length start j count =
        extractLFNRange r 0 start j count
  | 0, _, _ => rfl
  | count + 1, j, hbound => by
    have hlen : (pre ++ (r ++ rest)).length = pre.length + (32 + rest.length) := by
      simp [List.length_append, hr]
    have hpos : start + j * 2 + 1 < 32 := by omega
    simp only [extractLFNRange]
    rw [if_neg (show ¬ ((pre ++ (r ++ rest)).length ≤
        pre.length + start + j * 2 + 1) from by rw [hlen]; omega)]
    rw [if_neg (show ¬ (r.length ≤ 0 + start + j * 2 + 1) from by
      rw [hr]; omega)]
    rw [show pre.length + start + j * 2 = pre.length + (start + j * 2) from by
      omega]
    rw [readU16LE_shift pre r rest (start + j * 2) (by rw [hr]; omega)]
    rw [show (0 : Nat) + start + j * 2 = start + j * 2 from by omega]
    rw [extractLFNRange_shift pre r rest hr start count (j + 1) (by omega)]

theorem extractLFNChars_shift (pre r rest : List Nat) (hr : r.length = 32) :
    extractLFNChars (pre ++ (r ++ rest)) pre.length = extractLFNChars r 0 := by
  unfold extractLFNChars
  rw [extractLFNRange_shift pre r rest hr 1 5 0 (by omega),
    extractLFNRange_shift pre r rest hr 14 6 0 (by omega),
    extractLFNRange_shift pre r rest hr 28 2 0 (by omega)]

theorem mkDirEntry_shift (pre r rest : List Nat) (hr : r.length = 32)
    (parts : List (Option String)) :
    mkDirEntry (pre ++ (r ++ rest)) pre.length parts = mkDirEntry r 0 parts := by
  have ea0 : readAscii (pre ++ (r ++ rest)) pre.length 8 = readAscii r 0 8 := by
    unfold readAscii
    have h := bufSlice_shift pre r rest 0 8 (by rw [hr]; omega)
    rw [Nat.add_zero] at h
    rw [h]
  have ea8 : readAscii (pre ++ (r ++ rest)) (pre.length + 8) 3 =
      readAscii r 8 3 := by
    unfold readAscii
    rw [bufSlice_shift pre r rest 8 3 (by rw [hr]; omega)]
  have e11 : readU8 (pre ++ (r ++ rest)) (pre.length + 11) = readU8 r 11 := by
    unfold readU8; exact getD_shift pre r rest 11 (by rw [hr]; omega)
  have e26 : readU16LE (pre ++ (r ++ rest)) (pre.length + 26) = readU16LE r 26 :=
    readU16LE_shift pre r rest 26 (by rw [hr]; omega)
  have e28 : readU32LE (pre ++ (r ++ rest)) (pre.length + 28) = readU32LE r 28 :=
    readU32LE_shift pre r rest 28 (by rw [hr]; omega)
  have e22 : readU16LE (pre ++ (r ++ rest)) (pre.length + 22) = readU16LE r 22 :=
    readU16LE_shift pre r rest 22 (by rw [hr]; omega)
  have e24 : readU16LE (pre ++ (r ++ rest)) (pre.length + 24) = readU16LE r 24 :=
    readU16LE_shift pre r rest 24 (by rw [hr]; omega)
  unfold mkDirEntry parseDirEntryTime
  simp only [Nat.zero_add]
  rw [ea0, ea8, e11, e26, e28, e22, e24]

theorem parseDirEntriesAux_records :
    ∀ (recs : List (List Nat)) (pre : List Nat) (parts : List (Option String)),
      (∀ r ∈ recs, r.length = 32) →
      parseDirEntriesAux (pre ++ recs.flatten) parts pre.length recs.length =
        pdeRecs parts recs
  | [], pre, parts, _ => by
    rw [List.flatten_nil, List.length_nil]
    rfl
  | r :: rs, pre, parts, h => by
    have hr : r.length = 32 := h r (List.mem_cons_self r rs)
    have hrs : ∀ x ∈ rs, x.length = 32 :=
      fun x hx => h x (List.mem_cons_of_mem r hx)
    rw [List.flatten_cons, List.length_cons]
    have e0 : readU8 (pre ++ (r ++ rs.flatten)) pre.length = readU8 r 0 := by
      unfold readU8
      have h0 := getD_shift pre r rs.flatten 0 (by rw [hr]; omega)
      rw [Nat.add_zero] at h0
      exact h0
    have e11 : readU8 (pre ++ (r ++ rs.flatten)) (pre.length + 11) =
        readU8 r 11 := by
      unfold readU8; exact getD_shift pre r rs.flatten 11 (by rw [hr]; omega)
    have echars : extractLFNChars (pre ++ (r ++ rs.flatten)) pre.length =
        extractLFNChars r 0 := extractLFNChars_shift pre r rs.flatten hr
    have eent : mkDirEntry (pre ++ (r ++ rs.flatten)) pre.length parts =
        mkDirEntry r 0 parts := mkDirEntry_shift pre r rs.flatten hr parts
    have hnotlt : ¬ ((pre ++ (r ++ rs.flatten)).length < pre.length + 32) := by
      simp only [List.length_append, hr]; omega
    have hnext : ∀ ps, parseDirEntriesAux (pre ++ (r ++ rs.flatten)) ps
        (pre.length + 32) rs.length = pdeRecs ps rs := by
      intro ps
      have hF : pre ++ (r ++ rs.flatten) = (pre ++ r) ++ rs.flatten := by
        rw [List.append_assoc]
      have hoff : pre.length + 32 = (pre ++ r).length := by
        rw [List.length_append, hr]
      rw [hF, hoff]
      exact parseDirEntriesAux_records rs (pre ++ r) ps hrs
    simp only [parseDirEntriesAux, pdeRecs]
    rw [if_neg hnotlt, e0, e11, echars, eent]
    simp only [hnext]

theorem land63_self (m : Nat) (hm : m ≤ 63) : m &&& 63 = m := by
  interval_cases m <;> decide

theorem land64_zero (m : Nat) (hm : m ≤ 63) : m &&& 64 = 0 := by
  interval_cases m <;> decide

theorem land63_add64 (k : Nat) (hk : k ≤ 63) : (k + 64) &&& 63 = k := by
  interval_cases k <;> decide

theorem land64_add64 (k : Nat) (hk : k ≤ 63) : (k + 64) &&& 64 = 64 := by
  interval_cases k <;> decide

theorem set_replicate_append {α : Type} (d v : α) (l : List α) :
    ∀ (j m : Nat), j < m →
      (List.replicate m d ++ l).set j v =
        List.replicate j d ++ v :: (List.replicate (m - j - 1) d ++ l)
  | j, 0, h => absurd h (Nat.not_lt_zero j)
  | 0, m + 1, _ => by
    rw [List.replicate_succ, List.cons_append, List.set_cons_zero]
    simp
  | j + 1, m + 1, h => by
    rw [List.replicate_succ, List.cons_append, List.set_cons_succ,
      set_replicate_append d v l j m (by omega)]
    rw [show m + 1 - (j + 1) - 1 = m - j - 1 from by omega,
      List.replicate_succ, List.cons_append]

theorem setSlot_replicate (m : Nat) (done : List String) (v : String)
    (hm : 1 ≤ m) :
    setSlot (List.replicate m (none : Option String) ++ done.map some)
        (m - 1) v =
      List.replicate (m - 1) none ++ (v :: done).map some := by
  unfold setSlot
  rw [if_pos (by
    rw [List.length_append, List.length_replicate]; omega)]
  rw [set_replicate_append none (some v) (done.map some) (m - 1) m (by omega)]
  rw [show m - (m - 1) - 1 = 0 from by omega]
  simp

theorem setSlot_nil (i : Nat) (v : String) :
    setSlot [] i v = List.replicate i none ++ [v].map some := by
  unfold setSlot
  rw [if_neg (by simp)]
  simp

theorem partsJoin_map_some (l : List String) :
    partsJoin (l.map some) = String.join l := by
  unfold partsJoin
  rw [List.map_map]
  have h : ((fun o => Option.getD o "") ∘ some) = fun (s : String) => s := rfl
  rw [h, List.map_id']

theorem pdeRecs_lfn_run :
    ∀ (gs : List (List Nat)) (m : Nat) (done : List String)
      (tail : List (List Nat)),
      gs.length = m → m ≤ 63 →
      (∀ j, j < m → readU8 (gs.getD j []) 0 = m - j) →
      (∀ r ∈ gs, readU8 r 11 = 0x0F) →
      pdeRecs (List.replicate m (none : Option String) ++ done.map some)
          (gs ++ tail) =
        pdeRecs (((gs.map (fun r => String.mk (extractLFNChars r 0))).reverse
          ++ done).map some) tail
  | [], m, done, tail, hlen, _, _, _ => by
    subst hlen
    simp
  | g :: gs, m, done, tail, hlen, hm, hseq, hattr => by
    rw [List.length_cons] at hlen
    have hm1 : 1 ≤ m := by omega
    have hfirst : readU8 g 0 = m := by
      have h0 := hseq 0 (by omega)
      rwa [List.getD_cons_zero, Nat.sub_zero] at h0
    have hseq' : ∀ j, j < m - 1 → readU8 (gs.getD j []) 0 = m - 1 - j := by
      intro j hj
      have hs := hseq (j + 1) (by omega)
      rw [List.getD_cons_succ] at hs
      rw [show m - 1 - j = m - (j + 1) from by omega]
      exact hs
    have hattr' : ∀ r ∈ gs, readU8 r 11 = 0x0F :=
      fun r hrm => hattr r (List.mem_cons_of_mem g hrm)
    rw [List.cons_append]
    simp only [pdeRecs]
    rw [hfirst]
    rw [if_neg (show ¬ (m = 0) from by omega)]
    rw [if_neg (show ¬ (m = 0xE5) from by omega)]
    rw [if_pos (hattr g (List.mem_cons_self g gs))]
    rw [land63_self m hm, land64_zero m hm]
    rw [if_neg (show ¬ ((0 : Nat) ≠ 0) from by omega)]
    rw [if_neg (show ¬ (m = 0) from by omega)]
    rw [setSlot_replicate m done (String.mk (extractLFNChars g 0)) hm1]
    rw [pdeRecs_lfn_run gs (m - 1) (String.mk (extractLFNChars g 0) :: done)
      tail (by omega) (by omega) hseq' hattr']
    rw [List.map_cons, List.reverse_cons, List.append_assoc,
      List.singleton_append]

/-- **C8.** LFN reassembly: for a directory region consisting of 32-byte LFN
fragment records in descending sequence order (the record at index `j` carries
sequence `k - j`, the first record additionally the last-entry flag `0x40`,
all with attribute `0x0F`), followed by a 32-byte live short-name record, the
emitted `DirEntry`'s `longName` is the concatenation of the fragments'
characters in ascending sequence order `1..k`, each fragment contributing the
characters of its three UTF-16LE ranges up to the first `0x0000`/`0xFFFF`
code unit. -/
theorem c8_lfn_reassembly (frags : List (List Nat)) (sr : List Nat) (k : Nat)
    (hk : frags.length = k) (hk1 : 1 ≤ k) (hk63 : k ≤ 63)
    (hlen32 : ∀ r ∈ frags, r.length = 32) (hsrlen : sr.length = 32)
    (hseq : ∀ j, j < k →
      readU8 (frags.getD j []) 0 = (k - j) + (if j = 0 then 64 else 0))
    (hattr : ∀ r ∈ frags, readU8 r 11 = 0x0F)
    (hsr0 : readU8 sr 0 ≠ 0) (hsrE5 : readU8 sr 0 ≠ 0xE5)
    (hsrattr : readU8 sr 11 ≠ 0x0F) :
    (parseDirEntries (frags.flatten ++ sr) 0 (k + 1)).map (fun e => e.longName) =
      [some (String.join
        ((frags.map (fun r => String.mk (extractLFNChars r 0))).reverse))] := by
  have hall : ∀ r ∈ frags ++ [sr], r.length = 32 := by
    intro r hrm
    rcases List.mem_append.mp hrm with hin | hin
    · exact hlen32 r hin
    · rw [List.mem_singleton.mp hin]; exact hsrlen
  have hconv : parseDirEntries (frags.flatten ++ sr) 0 (k + 1) =
      pdeRecs [] (frags ++ [sr]) := by
    have h1 : (frags ++ [sr]).flatten = frags.flatten ++ sr := by simp
    have h2 : (frags ++ [sr]).length = k + 1 := by simp [hk]
    have h3 := parseDirEntriesAux_records (frags ++ [sr]) [] [] hall
    rw [h1, h2, List.nil_append, List.length_nil] at h3
    exact h3
  cases frags with
  | nil => rw [List.length_nil] at hk; omega
  | cons f0 gs =>
    rw [List.length_cons] at hk
    have hfirst : readU8 f0 0 = k + 64 := by
      have h0 := hseq 0 (by omega)
      rwa [List.getD_cons_zero, Nat.sub_zero, if_pos rfl] at h0
    have hseq' : ∀ j, j < k - 1 → readU8 (gs.getD j []) 0 = k - 1 - j := by
      intro j hj
      have hs := hseq (j + 1) (by omega)
      rw [List.getD_cons_succ, if_neg (by omega), Nat.add_zero] at hs
      rw [show k - 1 - j = k - (j + 1) from by omega]
      exact hs
    have hattr' : ∀ r ∈ gs, readU8 r 11 = 0x0F :=
      fun r hrm => hattr r (List.mem_cons_of_mem f0 hrm)
    rw [hconv, List.cons_append]
    simp only [pdeRecs]
    rw [hfirst]
    rw [if_neg (show ¬ (k + 64 = 0) from by omega)]
    rw [if_neg (show ¬ (k + 64 = 0xE5) from by omega)]
    rw [if_pos (hattr f0 (List.mem_cons_self f0 gs))]
    rw [land63_add64 k hk63, land64_add64 k hk63]
    rw [if_pos (show (64 : Nat) ≠ 0 from by omega)]
    rw [if_neg (show ¬ (k = 0) from by omega)]
    rw [setSlot_nil (k - 1) (String.mk (extractLFNChars f0 0))]
    rw [pdeRecs_lfn_run gs (k - 1) [String.mk (extractLFNChars f0 0)]
      [sr] (by omega) (by omega) hseq' hattr']
    simp only [pdeRecs]
    rw [if_neg hsr0, if_neg hsrE5, if_neg hsrattr]
    simp only [List.map_cons, List.map_nil]
    rw [show (mkDirEntry sr 0
        (((gs.map (fun r => String.mk (extractLFNChars r 0))).reverse ++
          [String.mk (extractLFNChars f0 0)]).map some)).longName =
      if (((gs.map (fun r => String.mk (extractLFNChars r 0))).reverse ++
          [String.mk (extractLFNChars f0 0)]).map some).length ≠ 0 then
        some (partsJoin
          (((gs.map (fun r => String.mk (extractLFNChars r 0))).reverse ++
            [String.mk (extractLFNChars f0 0)]).map some))
      else none from rfl]
    rw [if_pos (by simp)]
    rw [partsJoin_map_some]
    simp only [List.map_cons, List.reverse_cons]

theorem c8_lfn_reassembly_witness :
    (∀ j, j < 2 → readU8 (([c8frag2, c8frag1] : List (List Nat)).getD j []) 0 =
        (2 - j) + (if j = 0 then 64 else 0)) ∧
      (parseDirEntries ((([c8frag2, c8frag1] : List (List Nat)).flatten ++
          c8short)) 0 (2 + 1)).map (fun e => e.longName) =
        [some (String.join ((([c8frag2, c8frag1] : List (List Nat)).map
          (fun r => String.mk (extractLFNChars r 0))).reverse))] :=
  ⟨by decide,
    c8_lfn_reassembly [c8frag2, c8frag1] c8short 2 (by decide) (by decide)
      (by decide) (by decide) (by decide) (by decide) (by decide) (by decide)
      (by decide) (by decide)⟩

end FloppyExplorer
